import Mathlib

/-!
Verification development for the GeoSim geopolitical simulation.

Shallow embedding of the core subsystems (hex grid, nation economics,
war system, climate, alliances) translated from the Python sources
(src/geography.py, src/nation.py, src/combat.py, src/world.py,
src/economy.py, src/config.py).  Floating-point values in the source
are modelled as rationals, except where the source uses transcendental
operations (powers with fractional exponents, log10), which are
modelled over the reals.
-/

namespace GeoSim

/-! ## Terrain and hex grid (src/geography.py) -/

/-- Terrain kinds, from the TerrainType enum in src/geography.py. -/
inductive Terrain : Type
  | ocean
  | plains
  | mountain
  | desert
  | forest
  | strait
  | canal
deriving DecidableEq, Repr

/-- The hex grid: width, height and the terrain array ([y, x] indexing in
the source is modelled as a function of x and y). -/
structure HexGrid : Type where
  width : ℤ
  height : ℤ
  terrain : ℤ → ℤ → Terrain

/-- Neighbor offsets for even columns (odd-q offset layout),
src/geography.py lines 60-63. -/
def evenDirs : List (ℤ × ℤ) :=
  [(0, -1), (1, -1), (1, 0), (0, 1), (-1, 0), (-1, -1)]

/-- Neighbor offsets for odd columns, src/geography.py lines 65-68. -/
def oddDirs : List (ℤ × ℤ) :=
  [(0, -1), (1, 0), (1, 1), (0, 1), (-1, 1), (-1, 0)]

/-- HexGrid.get_neighbors (src/geography.py lines 56-78): the six offset
directions for the column parity of x, each wrapped into grid bounds with
the Python modulo (Int.emod agrees with Python % for positive modulus). -/
def HexGrid.getNeighbors (g : HexGrid) (x y : ℤ) : List (ℤ × ℤ) :=
  let dirs := if x % 2 ≠ 0 then oddDirs else evenDirs
  dirs.map (fun d => ((x + d.1) % g.width, (y + d.2) % g.height))

/-- HexGrid.distance (src/geography.py lines 80-89): per-axis minimum of the
direct and wrapped delta, combined with max(dx, dy, dx+dy). -/
def HexGrid.distance (g : HexGrid) (x1 y1 x2 y2 : ℤ) : ℤ :=
  let dx := min |x1 - x2| (g.width - |x1 - x2|)
  let dy := min |y1 - y2| (g.height - |y1 - y2|)
  max (max dx dy) (dx + dy)

/-- Helper: an integer multiple of n with absolute value below n is zero. -/
theorem eq_zero_of_dvd_of_abs_lt {n d : ℤ} (hdvd : n ∣ d) (hlt : |d| < n) : d = 0 := by
  obtain ⟨k, hk⟩ := hdvd
  rcases eq_or_ne k 0 with hk0 | hk0
  · simp [hk, hk0]
  · exfalso
    have hn : 0 < n := lt_of_le_of_lt (abs_nonneg d) hlt
    have h1 : (1 : ℤ) ≤ |k| := Int.one_le_abs (by exact_mod_cast hk0)
    have : n ≤ |d| := by
      calc n = n * 1 := (mul_one n).symm
        _ ≤ n * |k| := by exact mul_le_mul_of_nonneg_left h1 (le_of_lt hn)
        _ = |n| * |k| := by rw [abs_of_pos hn]
        _ = |n * k| := (abs_mul n k).symm
        _ = |d| := by rw [hk]
    omega

/-- Helper: wrapped coordinates with nearby offsets are injective once the
modulus is at least 3. -/
theorem wrap_inj {n x a b : ℤ} (hn : 3 ≤ n) (ha : |a| ≤ 1) (hb : |b| ≤ 1)
    (h : (x + a) % n = (x + b) % n) : a = b := by
  have hdvd : n ∣ (x + b) - (x + a) := Int.ModEq.dvd h
  have hlt : |(x + b) - (x + a)| < n := by
    have : (x + b) - (x + a) = b - a := by ring
    rw [this]
    have := abs_sub_abs_le_abs_sub b a
    have habs : |b - a| ≤ |b| + |a| := abs_sub b a
    omega
  have := eq_zero_of_dvd_of_abs_lt hdvd hlt
  omega

theorem mem_evenDirs_abs {d : ℤ × ℤ} (h : d ∈ evenDirs) : |d.1| ≤ 1 ∧ |d.2| ≤ 1 := by
  fin_cases h <;> norm_num

theorem mem_oddDirs_abs {d : ℤ × ℤ} (h : d ∈ oddDirs) : |d.1| ≤ 1 ∧ |d.2| ≤ 1 := by
  fin_cases h <;> norm_num

/-- C7 (amended): on any grid with width at least 3 and height at least 3,
get_neighbors of an in-bounds cell returns exactly 6 pairwise-distinct
coordinates, each inside the grid bounds.  (For width or height below 3 the
toroidal wrap makes some of the six coincide; see the counterexample.) -/
theorem getNeighbors_six_distinct_inbounds (g : HexGrid) (x y : ℤ)
    (hw : 3 ≤ g.width) (hh : 3 ≤ g.height)
    (_hx0 : 0 ≤ x) (_hxw : x < g.width) (_hy0 : 0 ≤ y) (_hyh : y < g.height) :
    (g.getNeighbors x y).length = 6 ∧ (g.getNeighbors x y).Nodup ∧
      ∀ p ∈ g.getNeighbors x y,
        0 ≤ p.1 ∧ p.1 < g.width ∧ 0 ≤ p.2 ∧ p.2 < g.height := by
  have hwpos : (0 : ℤ) < g.width := by omega
  have hhpos : (0 : ℤ) < g.height := by omega
  unfold HexGrid.getNeighbors
  set dirs := if x % 2 ≠ 0 then oddDirs else evenDirs with hdirs
  have hmem : ∀ d ∈ dirs, |d.1| ≤ 1 ∧ |d.2| ≤ 1 := by
    intro d hd
    rw [hdirs] at hd
    split at hd
    · exact mem_oddDirs_abs hd
    · exact mem_evenDirs_abs hd
  refine ⟨?_, ?_, ?_⟩
  · rw [List.length_map]
    rw [hdirs]
    split <;> rfl
  · have hnodup : dirs.Nodup := by
      rw [hdirs]; split <;> decide
    refine List.Nodup.map_on ?_ hnodup
    intro d1 h1 d2 h2 heq
    obtain ⟨ha1, ha2⟩ := hmem d1 h1
    obtain ⟨hb1, hb2⟩ := hmem d2 h2
    have heq1 : (x + d1.1) % g.width = (x + d2.1) % g.width := congrArg Prod.fst heq
    have heq2 : (y + d1.2) % g.height = (y + d2.2) % g.height := congrArg Prod.snd heq
    have e1 := wrap_inj hw ha1 hb1 heq1
    have e2 := wrap_inj hh ha2 hb2 heq2
    exact Prod.ext e1 e2
  · intro p hp
    simp only [List.mem_map] at hp
    obtain ⟨d, _, hd⟩ := hp
    subst hd
    refine ⟨Int.emod_nonneg _ (by omega), Int.emod_lt_of_pos _ hwpos,
      Int.emod_nonneg _ (by omega), Int.emod_lt_of_pos _ hhpos⟩

/-- C7 witness: the amended theorem applied to a concrete 10 by 10 grid at
cell (0,0). -/
theorem getNeighbors_six_distinct_inbounds_witness :
    (((⟨10, 10, fun _ _ => Terrain.plains⟩ : HexGrid).getNeighbors 0 0).length = 6 ∧
      ((⟨10, 10, fun _ _ => Terrain.plains⟩ : HexGrid).getNeighbors 0 0).Nodup ∧
      ∀ p ∈ (⟨10, 10, fun _ _ => Terrain.plains⟩ : HexGrid).getNeighbors 0 0,
        0 ≤ p.1 ∧ p.1 < 10 ∧ 0 ≤ p.2 ∧ p.2 < 10) :=
  getNeighbors_six_distinct_inbounds ⟨10, 10, fun _ _ => Terrain.plains⟩ 0 0
    (by norm_num) (by norm_num) (by norm_num) (by norm_num) (by norm_num) (by norm_num)

/-- C7 counterexample: on a 2 by 5 grid the claim fails as stated for every
width and height: get_neighbors (0,0) contains duplicate coordinates
(the offsets (1,-1) and (-1,-1) both wrap to (1,4)). -/
theorem getNeighbors_not_nodup_on_small_grid :
    ¬ (((⟨2, 5, fun _ _ => Terrain.plains⟩ : HexGrid).getNeighbors 0 0).Nodup) := by
  decide

/-- C10: for in-bounds coordinates, HexGrid.distance equals the wrapped
Manhattan distance dx + dy (the max of dx, dy, dx+dy is always dx+dy since
both are nonnegative); it is symmetric, and zero exactly when both wrapped
deltas are zero. -/
theorem distance_eq_wrapped_manhattan (g : HexGrid) (x1 y1 x2 y2 : ℤ)
    (hx1 : 0 ≤ x1) (hx1w : x1 < g.width) (hx2 : 0 ≤ x2) (hx2w : x2 < g.width)
    (hy1 : 0 ≤ y1) (hy1h : y1 < g.height) (hy2 : 0 ≤ y2) (hy2h : y2 < g.height) :
    g.distance x1 y1 x2 y2 =
      min |x1 - x2| (g.width - |x1 - x2|) + min |y1 - y2| (g.height - |y1 - y2|) ∧
    g.distance x1 y1 x2 y2 = g.distance x2 y2 x1 y1 ∧
    (g.distance x1 y1 x2 y2 = 0 ↔
      min |x1 - x2| (g.width - |x1 - x2|) = 0 ∧
        min |y1 - y2| (g.height - |y1 - y2|) = 0) := by
  unfold HexGrid.distance
  dsimp only
  have h1 : |x1 - x2| = |x2 - x1| := abs_sub_comm x1 x2
  have h2 : |y1 - y2| = |y2 - y1| := abs_sub_comm y1 y2
  have hax : |x1 - x2| < g.width := by
    rw [abs_lt]; omega
  have hay : |y1 - y2| < g.height := by
    rw [abs_lt]; omega
  have hdx : 0 ≤ min |x1 - x2| (g.width - |x1 - x2|) := by
    have := abs_nonneg (x1 - x2); omega
  have hdy : 0 ≤ min |y1 - y2| (g.height - |y1 - y2|) := by
    have := abs_nonneg (y1 - y2); omega
  refine ⟨by omega, by rw [h1, h2], by omega⟩

/-- C10 witness: the theorem applied to a concrete 10 by 10 grid at the
cells (1,2) and (9,5). -/
theorem distance_eq_wrapped_manhattan_witness :
    (⟨10, 10, fun _ _ => Terrain.plains⟩ : HexGrid).distance 1 2 9 5 =
      min |(1 : ℤ) - 9| (10 - |(1 : ℤ) - 9|) + min |(2 : ℤ) - 5| (10 - |(2 : ℤ) - 5|) :=
  (distance_eq_wrapped_manhattan ⟨10, 10, fun _ _ => Terrain.plains⟩ 1 2 9 5
    (by norm_num) (by norm_num) (by norm_num) (by norm_num)
    (by norm_num) (by norm_num) (by norm_num) (by norm_num)).1

/-! ## Configuration (src/config.py) -/

/-- Realism level, the Literal["low", "medium", "high"] field of
SimulationConfig. -/
inductive Realism : Type
  | low
  | medium
  | high
deriving DecidableEq, Repr

/-- SimulationConfig (src/config.py): the fields consumed by the modelled
subsystems, with the source defaults recorded in defaultConfig below. -/
structure Config : Type where
  realismLevel : Realism
  popGrowthBase : ℚ
  popMax : ℚ
  popCarryingCapacityFactor : ℚ
  popLogisticStrength : ℚ
  gdpMin : ℚ
  gdpMax : ℚ
  capitalShareAlpha : ℚ
  tfpGrowthBase : ℚ
  depreciationRate : ℚ
  resourceDepletionRate : ℚ
  climateGdpFactor : ℚ
  climateResourceFactor : ℚ
  carbonBudget2c : ℚ
  climateTempScaling : ℚ

/-- SimulationConfig.get_realism_multiplier (src/config.py lines 104-106). -/
def Config.realismMultiplier (cfg : Config) : ℚ :=
  match cfg.realismLevel with
  | Realism.low => 1/2
  | Realism.medium => 3/4
  | Realism.high => 1

/-- The default field values of SimulationConfig (src/config.py lines 21-102),
at realism level high. -/
def defaultConfig : Config where
  realismLevel := Realism.high
  popGrowthBase := 0.012
  popMax := 200e6
  popCarryingCapacityFactor := 1.5
  popLogisticStrength := 0.0001
  gdpMin := 0.1e12
  gdpMax := 20e12
  capitalShareAlpha := 0.33
  tfpGrowthBase := 0.015
  depreciationRate := 0.05
  resourceDepletionRate := 0.02
  climateGdpFactor := 2e-15
  climateResourceFactor := 0.5
  carbonBudget2c := 3.7e12
  climateTempScaling := 1.5

/-! ## Nation data model (src/nation.py) -/

/-- Government type (GOVERNMENT_TYPES in src/config.py). -/
inductive GovType : Type
  | democracy
  | autocracy
  | theocracy
  | technocracy
  | anarchy
deriving DecidableEq, Repr

/-- Military power per branch, the military_power dict of Nation. -/
structure MilitaryPower : Type where
  army : ℚ
  navy : ℚ
  air : ℚ
  nuclear : ℚ

/-- Nation (src/nation.py): the fields read or written by the modelled
operations.  Python float fields are rationals; the resource dicts are
partial maps from resource names (none models an absent key). -/
structure Nation : Type where
  id : ℕ
  government : GovType
  population : ℚ
  gdp : ℚ
  technology : ℚ
  health : ℚ
  ideology : ℚ
  stability : ℚ
  military : MilitaryPower
  isAtWar : Bool
  warExhaustion : ℚ
  alliances : Finset ℕ
  colonialSubjects : Finset ℕ
  resources : String → Option ℚ
  resourcesExtracted : String → Option ℚ
  resourcesInitial : String → Option ℚ
  capitalStock : ℚ
  investmentRate : ℚ

/-! ## Climate update (src/world.py, World._update_climate) -/

/-- Global climate state: World.cumulative_carbon, World.climate_index and
the tipping_points_triggered set, modelled as a duplicate-free list. -/
structure ClimateState : Type where
  cumulativeCarbon : ℚ
  climateIndex : ℚ
  tippingPoints : List String

/-- Global emissions computation, src/world.py lines 359-378: GDP-driven
emissions plus oil-extraction emissions minus the green-technology
reduction of high-technology nations. -/
def globalEmissions (cfg : Config) (nations : List Nation) : ℚ :=
  let totalGdp := ((nations.filter (fun n => 0 < n.population)).map (fun n => n.gdp)).sum
  let totalExtraction := ((nations.filter (fun n => 0 < n.population)).map
    (fun n => ((n.resourcesExtracted "oil").getD 0) * 10)).sum
  let greenReduction := ((nations.filter
      (fun n => 0 < n.population ∧ 80 < n.technology)).map
    (fun n => n.gdp * cfg.climateGdpFactor * ((n.technology - 80) / 20) * 0.5)).sum
  totalGdp * cfg.climateGdpFactor + totalExtraction * cfg.climateResourceFactor
    - greenReduction

/-- World._update_climate, src/world.py lines 357-408: accumulate emissions,
derive the temperature index from the carbon-budget fraction, and fire the
one-shot tipping points (budget exhaustion, permafrost with its 200e9 carbon
burst, amazon, ice sheets), each guarded by set membership.  The per-nation
damage loop of lines 410-461 does not touch the climate state and is not part
of this fragment. -/
def updateClimate (cfg : Config) (nations : List Nation) (st : ClimateState) :
    ClimateState :=
  let cc := st.cumulativeCarbon + max 0 (globalEmissions cfg nations)
  let budgetFraction := cc / cfg.carbonBudget2c
  let temp := budgetFraction * cfg.climateTempScaling
  let tp1 := if 1 < budgetFraction ∧ "budget_exhausted" ∉ st.tippingPoints then
    st.tippingPoints ++ ["budget_exhausted"] else st.tippingPoints
  let burst : Bool := "permafrost" ∉ tp1 ∧ 3/2 < temp
  let tp2 := if burst then tp1 ++ ["permafrost"] else tp1
  let cc2 := if burst then cc + 200e9 else cc
  let tp3 := if "amazon" ∉ tp2 ∧ 2 < temp then tp2 ++ ["amazon"] else tp2
  let tp4 := if "ice_sheets" ∉ tp3 ∧ 5/2 < temp then tp3 ++ ["ice_sheets"] else tp3
  ⟨cc2, temp, tp4⟩

/-- C9: starting from cumulative carbon 6.0e12 with the default budget 3.7e12
and scaling 1.5, and no additional emissions, one climate update computes a
temperature close to 2.43 degrees (exactly 90/37) and triggers both the
permafrost and amazon tipping points; a second update re-fires neither,
duplicates neither entry, and does not re-apply the permafrost carbon burst. -/
theorem updateClimate_tipping_points_once :
    (updateClimate defaultConfig [] ⟨6.0e12, 0, []⟩).climateIndex = 90/37 ∧
    243/100 < (updateClimate defaultConfig [] ⟨6.0e12, 0, []⟩).climateIndex ∧
    (updateClimate defaultConfig [] ⟨6.0e12, 0, []⟩).climateIndex < 244/100 ∧
    "permafrost" ∈ (updateClimate defaultConfig [] ⟨6.0e12, 0, []⟩).tippingPoints ∧
    "amazon" ∈ (updateClimate defaultConfig [] ⟨6.0e12, 0, []⟩).tippingPoints ∧
    "permafrost" ∈ (updateClimate defaultConfig []
      (updateClimate defaultConfig [] ⟨6.0e12, 0, []⟩)).tippingPoints ∧
    "amazon" ∈ (updateClimate defaultConfig []
      (updateClimate defaultConfig [] ⟨6.0e12, 0, []⟩)).tippingPoints ∧
    (updateClimate defaultConfig []
      (updateClimate defaultConfig [] ⟨6.0e12, 0, []⟩)).tippingPoints.count
        "permafrost" = 1 ∧
    (updateClimate defaultConfig []
      (updateClimate defaultConfig [] ⟨6.0e12, 0, []⟩)).tippingPoints.count
        "amazon" = 1 ∧
    (updateClimate defaultConfig []
        (updateClimate defaultConfig [] ⟨6.0e12, 0, []⟩)).cumulativeCarbon =
      (updateClimate defaultConfig [] ⟨6.0e12, 0, []⟩).cumulativeCarbon := by
  have h0 : ∀ cfg, globalEmissions cfg [] = 0 := by
    intro cfg
    simp [globalEmissions]
  have h1 : updateClimate defaultConfig [] ⟨6.0e12, 0, []⟩ =
      ⟨6.2e12, 90/37, ["budget_exhausted", "permafrost", "amazon"]⟩ := by
    norm_num [updateClimate, h0, defaultConfig]
    decide
  have h2 : updateClimate defaultConfig []
        ⟨6.2e12, 90/37, ["budget_exhausted", "permafrost", "amazon"]⟩ =
      ⟨6.2e12, 93/37, ["budget_exhausted", "permafrost", "amazon", "ice_sheets"]⟩ := by
    norm_num [updateClimate, h0, defaultConfig]
    decide
  simp only [h1, h2]
  norm_num
  decide

/-! ## Population update (src/nation.py, Nation.update_population) -/

/-- Nation.update_population (src/nation.py lines 324-337): growth from the
base rate, health deviation and farmland bonus, scaled by the logistic
factor, floored at 0. -/
def updatePopulation (cfg : Config) (n : Nation) : Nation :=
  let base := cfg.popGrowthBase * cfg.realismMultiplier
  let healthFactor := (n.health - 50) / 100
  let resourceFactor := match n.resources "farmland" with
    | some farmland => min 0.05 (farmland / (1e3 + n.population / 1e6))
    | none => 0
  let growth := base + healthFactor * 0.001 + resourceFactor
  let carrying := cfg.popMax * cfg.popCarryingCapacityFactor
  let logisticFactor := 1 - (n.population / carrying) * cfg.popLogisticStrength
  { n with population := max 0 (n.population * (1 + growth) * logisticFactor) }

/-- C1 (helper for the population invariant): Nation.update_population itself
always leaves the population nonnegative, thanks to its explicit floor. -/
theorem updatePopulation_nonneg (cfg : Config) (n : Nation) :
    0 ≤ (updatePopulation cfg n).population :=
  le_max_left 0 _

/-! ## Resource extraction (src/world.py, World._extract_resources) -/

/-- Pointwise update of a resource map. -/
def setRes (f : String → Option ℚ) (k : String) (v : ℚ) : String → Option ℚ :=
  fun s => if s = k then some v else f s

/-- World._extract_resources for one nation and one resource
(src/world.py lines 593-635): Hubbert-curve extraction of the resource,
capped at the remaining stock, with the extracted amount added to GDP at a
per-unit value drawn uniformly from [1e6, 5e6] (the draw is the valueDraw
parameter). -/
def extractResource (cfg : Config) (n : Nation) (res : String) (valueDraw : ℚ) :
    Nation :=
  if n.population = 0 then n else
  match n.resources res with
  | none => n
  | some amount =>
    if amount ≤ 0 then n else
    let totalInitial := (n.resourcesInitial res).getD (amount * 2)
    let extractedSoFar := (n.resourcesExtracted res).getD 0
    if totalInitial ≤ 0 then n else
    let depletionFraction := extractedSoFar / totalInitial
    let dClamped := max 0.01 (min 0.99 depletionFraction)
    let curveFactor := 29 * dClamped ^ 2 * (1 - dClamped) ^ 3
    let extractionRate := cfg.resourceDepletionRate * curveFactor *
      (1 + n.technology / 100 * 0.5)
    let extractedAmount := min (totalInitial * extractionRate) amount
    { n with
      resources := setRes n.resources res (amount - extractedAmount)
      resourcesExtracted := setRes n.resourcesExtracted res
        (extractedSoFar + extractedAmount)
      gdp := n.gdp + extractedAmount * valueDraw }

/-- A concrete nation state used by several counterexamples below. -/
def baseNation : Nation where
  id := 0
  government := GovType.autocracy
  population := 1e6
  gdp := 1e12
  technology := 50
  health := 70
  ideology := 0
  stability := 60
  military := ⟨30, 20, 20, 0⟩
  isAtWar := false
  warExhaustion := 0
  alliances := ∅
  colonialSubjects := ∅
  resources := fun _ => none
  resourcesExtracted := fun _ => none
  resourcesInitial := fun _ => none
  capitalStock := 3e12
  investmentRate := 0.25

/-- C2 counterexample: a nation whose GDP sits at the configured maximum
(20e12, a state produced by calculate_gdp itself) leaves the resource
extraction phase with GDP strictly above gdp_max: the extraction boost at
src/world.py line 635 is applied without a clamp.  The per-unit value draw
2e6 is inside the uniform range [1e6, 5e6]. -/
theorem extractResource_gdp_above_max :
    defaultConfig.gdpMax <
      (extractResource defaultConfig
        { baseNation with
            gdp := 20e12
            technology := 0
            resources := fun s => if s = "oil" then some 100 else none
            resourcesInitial := fun s => if s = "oil" then some 200 else none
            resourcesExtracted := fun s => if s = "oil" then some 100 else none }
        "oil" 2e6).gdp := by
  norm_num [extractResource, defaultConfig, baseNation]

/-! ## GDP calculation (src/nation.py, Nation.calculate_gdp) -/

/-- Working-age ratio, src/nation.py line 180. -/
def workingAgeRatio (n : Nation) : ℚ := 0.65 - n.technology / 1000

/-- Human-capital factor h, src/nation.py line 176. -/
def humanCapital (n : Nation) : ℚ := (n.health / 100) * (1 + n.technology / 200)

/-- Effective labor, src/nation.py line 181. -/
def effectiveLabor (n : Nation) : ℚ :=
  n.population * workingAgeRatio n * humanCapital n

/-- Effective labor in millions with the floor at 1, src/nation.py line 182. -/
def laborMillions (n : Nation) : ℚ := max 1 (effectiveLabor n / 1e6)

/-- Total factor productivity A, src/nation.py lines 185-193. -/
def tfpA (cfg : Config) (n : Nation) : ℚ :=
  (1 + cfg.tfpGrowthBase * cfg.realismMultiplier) * (1 + n.technology / 100)
    * ((n.stability / 100) * 1.2) * 0.05

/-- Capital in trillions with its floors, src/nation.py lines 196-197. -/
def capitalTrillions (n : Nation) : ℚ :=
  max 0.001 ((max 1 n.capitalStock) / 1e12)

/-- The pre-clamp GDP of Nation.calculate_gdp (src/nation.py lines 169-207):
Cobb-Douglas production with real exponents, multiplied by the trade
multiplier and the war-damage factor. -/
noncomputable def rawGdp (cfg : Config) (n : Nation) (tradeMult : ℝ) : ℝ :=
  let raw := (tfpA cfg n : ℝ)
    * (capitalTrillions n : ℝ) ^ (cfg.capitalShareAlpha : ℝ)
    * (laborMillions n : ℝ) ^ ((1 : ℝ) - (cfg.capitalShareAlpha : ℝ))
    * 1e12
  let g := raw * tradeMult
  if n.isAtWar then g * 0.92 else g

/-- The value returned by Nation.calculate_gdp (src/nation.py lines 223-227):
the raw GDP clamped into [gdp_min, gdp_max]. -/
noncomputable def calculateGdp (cfg : Config) (n : Nation) (tradeMult : ℝ) : ℝ :=
  max (cfg.gdpMin : ℝ) (min (cfg.gdpMax : ℝ) (rawGdp cfg n tradeMult))

/-- C2 (amended): the value Nation.calculate_gdp assigns is always inside the
configured bounds (its final clamp), for any nation state and trade
multiplier, whenever the configuration is consistent.  The original claim
that every phase of the step preserves the bound is refuted by the
extraction counterexample above. -/
theorem calculateGdp_within_bounds (cfg : Config) (n : Nation) (tm : ℝ)
    (h : cfg.gdpMin ≤ cfg.gdpMax) :
    (cfg.gdpMin : ℝ) ≤ calculateGdp cfg n tm ∧
      calculateGdp cfg n tm ≤ (cfg.gdpMax : ℝ) := by
  constructor
  · exact le_max_left _ _
  · exact max_le (by exact_mod_cast h) (min_le_left _ _)

/-- C2 witness: the bounds theorem applied at the default configuration. -/
theorem calculateGdp_within_bounds_witness :
    (defaultConfig.gdpMin : ℝ) ≤ calculateGdp defaultConfig baseNation 1 ∧
      calculateGdp defaultConfig baseNation 1 ≤ (defaultConfig.gdpMax : ℝ) :=
  calculateGdp_within_bounds defaultConfig baseNation 1 (by norm_num [defaultConfig])

/-! ## Output elasticities of calculate_gdp (claim C6) -/

/-- Helper: for a base above 1 and an exponent strictly between 0 and 1, the
real power lies strictly between 1 and the base. -/
theorem rpow_bracket {x : ℝ} (hx : 1 < x) {y : ℝ} (hy0 : 0 < y) (hy1 : y < 1) :
    1 < x ^ y ∧ x ^ y < x := by
  constructor
  · exact (Real.one_lt_rpow_iff_of_pos (lt_trans one_pos hx)).2 (Or.inl ⟨hx, hy0⟩)
  · have := Real.rpow_lt_rpow_of_exponent_lt hx hy1
    rwa [Real.rpow_one] at this

/-- Helper: the labor floor is inert when it is not binding, and scales
linearly under a 10 percent population increase. -/
theorem laborMillions_scale (n : Nation) (hL : 1 ≤ effectiveLabor n / 1e6) :
    laborMillions n = effectiveLabor n / 1e6 ∧
      laborMillions { n with population := 1.1 * n.population } =
        1.1 * (effectiveLabor n / 1e6) := by
  have heL : effectiveLabor { n with population := 1.1 * n.population } =
      1.1 * effectiveLabor n := by
    simp only [effectiveLabor, workingAgeRatio, humanCapital]
    ring
  constructor
  · exact max_eq_right hL
  · unfold laborMillions
    rw [heL]
    have : (1 : ℚ) ≤ 1.1 * effectiveLabor n / 1e6 := by nlinarith
    rw [max_eq_right (by nlinarith)]
    ring

/-- Helper: the floored capital term grows by at most 10 percent under a 10
percent capital increase. -/
theorem capitalTrillions_scale (n : Nation) :
    capitalTrillions { n with capitalStock := 1.1 * n.capitalStock } ≤
      1.1 * capitalTrillions n := by
  unfold capitalTrillions
  have h1 : (1 : ℚ) ≤ max 1 n.capitalStock := le_max_left _ _
  have h2 : n.capitalStock ≤ max 1 n.capitalStock := le_max_right _ _
  have h3 : (0.001 : ℚ) ≤ max 0.001 (max 1 n.capitalStock / 1e12) := le_max_left _ _
  have h4 : max 1 n.capitalStock / 1e12 ≤ max 0.001 (max 1 n.capitalStock / 1e12) :=
    le_max_right _ _
  have hmax : max 1 (1.1 * n.capitalStock) ≤ 1.1 * max 1 n.capitalStock := by
    apply max_le
    · nlinarith
    · nlinarith
  apply max_le
  · nlinarith
  · have : max 1 ((1.1 : ℚ) * n.capitalStock) / 1e12 ≤
        1.1 * (max 1 n.capitalStock / 1e12) := by nlinarith
    nlinarith

/-- Helper: positivity of the floored capital term. -/
theorem capitalTrillions_pos (n : Nation) : 0 < capitalTrillions n :=
  lt_of_lt_of_le (by norm_num) (le_max_left _ _)

/-- Helper: the clamp of calculate_gdp is inert when the raw GDP already lies
inside the configured bounds. -/
theorem calculateGdp_eq_raw (cfg : Config) (n : Nation) (tm : ℝ)
    (h1 : (cfg.gdpMin : ℝ) ≤ rawGdp cfg n tm)
    (h2 : rawGdp cfg n tm ≤ (cfg.gdpMax : ℝ)) :
    calculateGdp cfg n tm = rawGdp cfg n tm := by
  unfold calculateGdp
  rw [min_eq_right h2, max_eq_right h1]

/-- Helper: the raw GDP factored as a product of its positive components,
with the war-damage factor isolated. -/
theorem rawGdp_factored (cfg : Config) (n : Nation) (tm : ℝ) :
    rawGdp cfg n tm =
      ((tfpA cfg n : ℚ) : ℝ)
        * ((capitalTrillions n : ℚ) : ℝ) ^ ((cfg.capitalShareAlpha : ℚ) : ℝ)
        * ((laborMillions n : ℚ) : ℝ) ^ ((1 : ℝ) - ((cfg.capitalShareAlpha : ℚ) : ℝ))
        * 1e12 * tm * (if n.isAtWar then (0.92 : ℝ) else 1) := by
  unfold rawGdp
  rcases hw : n.isAtWar <;>
    simp only [hw, Bool.false_eq_true, if_true, if_false, ite_true, ite_false] <;> ring

/-- C6: with the default capital share 0.33, for any nation state where the
labor floor and the GDP clamp are not binding (in the base state and in both
perturbed states), a 10 percent capital increase yields a strictly smaller
relative GDP increase from calculate_gdp than a 10 percent population
increase: the labor elasticity 0.67 exceeds the capital elasticity 0.33. -/
theorem calculateGdp_labor_elasticity_exceeds_capital (cfg : Config) (n : Nation)
    (tm : ℝ)
    (hα : cfg.capitalShareAlpha = 33/100)
    (hL : 1 ≤ effectiveLabor n / 1e6)
    (htfp : 0 < tfpA cfg n)
    (htm : 0 < tm)
    (hb1 : (cfg.gdpMin : ℝ) ≤ rawGdp cfg n tm)
    (hb2 : rawGdp cfg n tm ≤ (cfg.gdpMax : ℝ))
    (hc1 : (cfg.gdpMin : ℝ) ≤
      rawGdp cfg { n with capitalStock := 1.1 * n.capitalStock } tm)
    (hc2 : rawGdp cfg { n with capitalStock := 1.1 * n.capitalStock } tm ≤
      (cfg.gdpMax : ℝ))
    (hp1 : (cfg.gdpMin : ℝ) ≤
      rawGdp cfg { n with population := 1.1 * n.population } tm)
    (hp2 : rawGdp cfg { n with population := 1.1 * n.population } tm ≤
      (cfg.gdpMax : ℝ)) :
    (calculateGdp cfg { n with capitalStock := 1.1 * n.capitalStock } tm
        - calculateGdp cfg n tm) / calculateGdp cfg n tm <
      (calculateGdp cfg { n with population := 1.1 * n.population } tm
        - calculateGdp cfg n tm) / calculateGdp cfg n tm := by
  have hK := capitalTrillions_pos n
  have hKR : (0 : ℝ) < ((capitalTrillions n : ℚ) : ℝ) := by exact_mod_cast hK
  have hKR2 : (0 : ℝ) <
      ((capitalTrillions { n with capitalStock := 1.1 * n.capitalStock } : ℚ) : ℝ) := by
    exact_mod_cast capitalTrillions_pos { n with capitalStock := 1.1 * n.capitalStock }
  obtain ⟨hL1, hL2⟩ := laborMillions_scale n hL
  have hLpos : (0 : ℚ) < laborMillions n := lt_of_lt_of_le one_pos (le_max_left _ _)
  have hLR : (0 : ℝ) < ((laborMillions n : ℚ) : ℝ) := by exact_mod_cast hLpos
  have htfpR : (0 : ℝ) < ((tfpA cfg n : ℚ) : ℝ) := by exact_mod_cast htfp
  set α : ℝ := ((cfg.capitalShareAlpha : ℚ) : ℝ) with hαdef
  have hα0 : 0 < α := by rw [hαdef, hα]; norm_num
  have hα1 : α < 1/2 := by rw [hαdef, hα]; norm_num
  set W : ℝ := if n.isAtWar then (0.92 : ℝ) else 1 with hWdef
  have hW : 0 < W := by
    rw [hWdef]; rcases n.isAtWar <;> norm_num
  have hKa : (0 : ℝ) < ((capitalTrillions n : ℚ) : ℝ) ^ α := Real.rpow_pos_of_pos hKR _
  have hLa : (0 : ℝ) < ((laborMillions n : ℚ) : ℝ) ^ ((1 : ℝ) - α) :=
    Real.rpow_pos_of_pos hLR _
  -- the base raw GDP is positive
  have hBpos : 0 < rawGdp cfg n tm := by
    rw [rawGdp_factored]
    exact mul_pos (mul_pos (mul_pos (mul_pos (mul_pos htfpR hKa) hLa)
      (by norm_num)) htm) hW
  -- the population-scaled raw GDP is an exact rescaling
  have hpop : rawGdp cfg { n with population := 1.1 * n.population } tm =
      (1.1 : ℝ) ^ ((1 : ℝ) - α) * rawGdp cfg n tm := by
    rw [rawGdp_factored, rawGdp_factored]
    have e2 : capitalTrillions { n with population := 1.1 * n.population } =
        capitalTrillions n := rfl
    have e3 : tfpA cfg { n with population := 1.1 * n.population } = tfpA cfg n := rfl
    have e4 : ({ n with population := 1.1 * n.population } : Nation).isAtWar =
        n.isAtWar := rfl
    have eLm : ((laborMillions { n with population := 1.1 * n.population } : ℚ) : ℝ) =
        1.1 * ((laborMillions n : ℚ) : ℝ) := by
      rw [hL2, hL1]
      push_cast
      ring
    rw [e2, e3, e4, eLm, Real.mul_rpow (by norm_num) (le_of_lt hLR)]
    ring
  -- the capital-scaled raw GDP gains at most the capital-share power of 1.1
  have hcap : rawGdp cfg { n with capitalStock := 1.1 * n.capitalStock } tm ≤
      (1.1 : ℝ) ^ α * rawGdp cfg n tm := by
    have hKle : ((capitalTrillions { n with capitalStock := 1.1 * n.capitalStock } : ℚ) : ℝ) ≤
        1.1 * ((capitalTrillions n : ℚ) : ℝ) := by
      have h2 : ((capitalTrillions { n with capitalStock := 1.1 * n.capitalStock } : ℚ) : ℝ) ≤
          (((1.1 : ℚ) * capitalTrillions n : ℚ) : ℝ) :=
        Rat.cast_le.mpr (capitalTrillions_scale n)
      rw [Rat.cast_mul] at h2
      have h0 : ((1.1 : ℚ) : ℝ) = 1.1 := by norm_num
      rwa [h0] at h2
    have hrp : ((capitalTrillions { n with capitalStock := 1.1 * n.capitalStock } : ℚ) : ℝ) ^ α ≤
        (1.1 : ℝ) ^ α * ((capitalTrillions n : ℚ) : ℝ) ^ α := by
      calc ((capitalTrillions { n with capitalStock := 1.1 * n.capitalStock } : ℚ) : ℝ) ^ α ≤
          ((1.1 : ℝ) * ((capitalTrillions n : ℚ) : ℝ)) ^ α :=
            Real.rpow_le_rpow (le_of_lt hKR2) hKle (le_of_lt hα0)
        _ = (1.1 : ℝ) ^ α * ((capitalTrillions n : ℚ) : ℝ) ^ α :=
            Real.mul_rpow (by norm_num) (le_of_lt hKR)
    rw [rawGdp_factored, rawGdp_factored]
    have e3 : tfpA cfg { n with capitalStock := 1.1 * n.capitalStock } = tfpA cfg n := rfl
    have e4 : laborMillions { n with capitalStock := 1.1 * n.capitalStock } =
        laborMillions n := rfl
    have e5 : ({ n with capitalStock := 1.1 * n.capitalStock } : Nation).isAtWar =
        n.isAtWar := rfl
    rw [e3, e4, e5]
    have hrest : (0 : ℝ) ≤ ((tfpA cfg n : ℚ) : ℝ)
        * ((laborMillions n : ℚ) : ℝ) ^ ((1 : ℝ) - α) * 1e12 * tm * W :=
      le_of_lt (mul_pos (mul_pos (mul_pos (mul_pos htfpR hLa) (by norm_num)) htm) hW)
    calc ((tfpA cfg n : ℚ) : ℝ)
          * ((capitalTrillions { n with capitalStock := 1.1 * n.capitalStock } : ℚ) : ℝ) ^ α
          * ((laborMillions n : ℚ) : ℝ) ^ ((1 : ℝ) - α) * 1e12 * tm * W =
        ((capitalTrillions { n with capitalStock := 1.1 * n.capitalStock } : ℚ) : ℝ) ^ α
          * (((tfpA cfg n : ℚ) : ℝ)
            * ((laborMillions n : ℚ) : ℝ) ^ ((1 : ℝ) - α) * 1e12 * tm * W) := by ring
      _ ≤ ((1.1 : ℝ) ^ α * ((capitalTrillions n : ℚ) : ℝ) ^ α)
          * (((tfpA cfg n : ℚ) : ℝ)
            * ((laborMillions n : ℚ) : ℝ) ^ ((1 : ℝ) - α) * 1e12 * tm * W) :=
          mul_le_mul_of_nonneg_right hrp hrest
      _ = (1.1 : ℝ) ^ α * (((tfpA cfg n : ℚ) : ℝ)
          * ((capitalTrillions n : ℚ) : ℝ) ^ α
          * ((laborMillions n : ℚ) : ℝ) ^ ((1 : ℝ) - α) * 1e12 * tm * W) := by ring
  -- the exponent comparison
  have hexp : (1.1 : ℝ) ^ α < (1.1 : ℝ) ^ ((1 : ℝ) - α) := by
    apply Real.rpow_lt_rpow_of_exponent_lt (by norm_num)
    linarith
  -- put the three clamp-free values together
  rw [calculateGdp_eq_raw cfg n tm hb1 hb2,
    calculateGdp_eq_raw cfg _ tm hc1 hc2,
    calculateGdp_eq_raw cfg _ tm hp1 hp2]
  rw [div_lt_div_iff_of_pos_right hBpos]
  have hlt : rawGdp cfg { n with capitalStock := 1.1 * n.capitalStock } tm <
      rawGdp cfg { n with population := 1.1 * n.population } tm := by
    rw [hpop]
    calc rawGdp cfg { n with capitalStock := 1.1 * n.capitalStock } tm ≤
        (1.1 : ℝ) ^ α * rawGdp cfg n tm := hcap
      _ < (1.1 : ℝ) ^ ((1 : ℝ) - α) * rawGdp cfg n tm :=
          mul_lt_mul_of_pos_right hexp hBpos
  linarith

/-- The concrete nation state for the C6 witness. -/
def c6Nation : Nation :=
  { baseNation with
      population := 2e6
      capitalStock := 1e12
      technology := 100
      health := 100
      stability := 100 }

/-- Helper: clamp bounds for the C6 witness base state. -/
theorem c6_raw_base_bounds :
    (defaultConfig.gdpMin : ℝ) ≤ rawGdp defaultConfig c6Nation 1 ∧
      rawGdp defaultConfig c6Nation 1 ≤ (defaultConfig.gdpMax : ℝ) := by
  have eA : (tfpA defaultConfig c6Nation : ℚ) = 0.1218 := by
    norm_num [tfpA, defaultConfig, Config.realismMultiplier, c6Nation, baseNation]
  have eK : (capitalTrillions c6Nation : ℚ) = 1 := by
    norm_num [capitalTrillions, c6Nation, baseNation]
  have eL : (laborMillions c6Nation : ℚ) = 1.65 := by
    norm_num [laborMillions, effectiveLabor, workingAgeRatio, humanCapital,
      c6Nation, baseNation]
  have eα : ((defaultConfig.capitalShareAlpha : ℚ) : ℝ) = 0.33 := by
    norm_num [defaultConfig]
  have eW : c6Nation.isAtWar = false := rfl
  rw [rawGdp_factored, eA, eK, eL, eα, eW]
  have ee : (1 : ℝ) - 0.33 = 0.67 := by norm_num
  rw [ee]
  obtain ⟨hlo, hhi⟩ := rpow_bracket (show (1:ℝ) < ((1.65 : ℚ) : ℝ) by norm_num)
    (show (0:ℝ) < 0.67 by norm_num) (show (0.67:ℝ) < 1 by norm_num)
  rw [Rat.cast_one, Real.one_rpow]
  have hc : ((1.65 : ℚ) : ℝ) = 1.65 := by norm_num
  rw [hc] at hlo hhi
  constructor
  · simp only [Bool.false_eq_true, if_false]
    push_cast
    norm_num [defaultConfig]
    nlinarith
  · simp only [Bool.false_eq_true, if_false]
    push_cast
    norm_num [defaultConfig]
    nlinarith

/-- Helper: clamp bounds for the C6 witness capital-increased state. -/
theorem c6_raw_cap_bounds :
    (defaultConfig.gdpMin : ℝ) ≤
      rawGdp defaultConfig { c6Nation with capitalStock := 1.1 * c6Nation.capitalStock } 1 ∧
      rawGdp defaultConfig { c6Nation with capitalStock := 1.1 * c6Nation.capitalStock } 1 ≤
        (defaultConfig.gdpMax : ℝ) := by
  have eA : (tfpA defaultConfig
      { c6Nation with capitalStock := 1.1 * c6Nation.capitalStock } : ℚ) = 0.1218 := by
    norm_num [tfpA, defaultConfig, Config.realismMultiplier, c6Nation, baseNation]
  have eK : (capitalTrillions
      { c6Nation with capitalStock := 1.1 * c6Nation.capitalStock } : ℚ) = 1.1 := by
    norm_num [capitalTrillions, c6Nation, baseNation]
  have eL : (laborMillions
      { c6Nation with capitalStock := 1.1 * c6Nation.capitalStock } : ℚ) = 1.65 := by
    norm_num [laborMillions, effectiveLabor, workingAgeRatio, humanCapital,
      c6Nation, baseNation]
  have eα : ((defaultConfig.capitalShareAlpha : ℚ) : ℝ) = 0.33 := by
    norm_num [defaultConfig]
  have eW : ({ c6Nation with capitalStock := 1.1 * c6Nation.capitalStock } : Nation).isAtWar
      = false := rfl
  rw [rawGdp_factored, eA, eK, eL, eα, eW]
  have ee : (1 : ℝ) - 0.33 = 0.67 := by norm_num
  rw [ee]
  obtain ⟨hlo, hhi⟩ := rpow_bracket (show (1:ℝ) < ((1.65 : ℚ) : ℝ) by norm_num)
    (show (0:ℝ) < 0.67 by norm_num) (show (0.67:ℝ) < 1 by norm_num)
  obtain ⟨klo, khi⟩ := rpow_bracket (show (1:ℝ) < ((1.1 : ℚ) : ℝ) by norm_num)
    (show (0:ℝ) < 0.33 by norm_num) (show (0.33:ℝ) < 1 by norm_num)
  have hc : ((1.65 : ℚ) : ℝ) = 1.65 := by norm_num
  have hk : ((1.1 : ℚ) : ℝ) = 1.1 := by norm_num
  rw [hc] at hlo hhi
  rw [hk] at klo khi
  constructor
  · simp only [Bool.false_eq_true, if_false]
    push_cast
    norm_num [defaultConfig]
    nlinarith
  · simp only [Bool.false_eq_true, if_false]
    push_cast
    norm_num [defaultConfig]
    nlinarith

/-- Helper: clamp bounds for the C6 witness population-increased state. -/
theorem c6_raw_pop_bounds :
    (defaultConfig.gdpMin : ℝ) ≤
      rawGdp defaultConfig { c6Nation with population := 1.1 * c6Nation.population } 1 ∧
      rawGdp defaultConfig { c6Nation with population := 1.1 * c6Nation.population } 1 ≤
        (defaultConfig.gdpMax : ℝ) := by
  have eA : (tfpA defaultConfig
      { c6Nation with population := 1.1 * c6Nation.population } : ℚ) = 0.1218 := by
    norm_num [tfpA, defaultConfig, Config.realismMultiplier, c6Nation, baseNation]
  have eK : (capitalTrillions
      { c6Nation with population := 1.1 * c6Nation.population } : ℚ) = 1 := by
    norm_num [capitalTrillions, c6Nation, baseNation]
  have eL : (laborMillions
      { c6Nation with population := 1.1 * c6Nation.population } : ℚ) = 1.815 := by
    norm_num [laborMillions, effectiveLabor, workingAgeRatio, humanCapital,
      c6Nation, baseNation]
  have eα : ((defaultConfig.capitalShareAlpha : ℚ) : ℝ) = 0.33 := by
    norm_num [defaultConfig]
  have eW : ({ c6Nation with population := 1.1 * c6Nation.population } : Nation).isAtWar
      = false := rfl
  rw [rawGdp_factored, eA, eK, eL, eα, eW]
  have ee : (1 : ℝ) - 0.33 = 0.67 := by norm_num
  rw [ee]
  obtain ⟨hlo, hhi⟩ := rpow_bracket (show (1:ℝ) < ((1.815 : ℚ) : ℝ) by norm_num)
    (show (0:ℝ) < 0.67 by norm_num) (show (0.67:ℝ) < 1 by norm_num)
  have hc : ((1.815 : ℚ) : ℝ) = 1.815 := by norm_num
  rw [hc] at hlo hhi
  rw [Rat.cast_one, Real.one_rpow]
  constructor
  · simp only [Bool.false_eq_true, if_false]
    push_cast
    norm_num [defaultConfig]
    nlinarith
  · simp only [Bool.false_eq_true, if_false]
    push_cast
    norm_num [defaultConfig]
    nlinarith

/-- C6 witness: the elasticity theorem applied at a concrete nation state
with the default configuration, with all its hypotheses discharged. -/
theorem calculateGdp_labor_elasticity_exceeds_capital_witness :
    (calculateGdp defaultConfig
        { c6Nation with capitalStock := 1.1 * c6Nation.capitalStock } 1
        - calculateGdp defaultConfig c6Nation 1) / calculateGdp defaultConfig c6Nation 1 <
      (calculateGdp defaultConfig
        { c6Nation with population := 1.1 * c6Nation.population } 1
        - calculateGdp defaultConfig c6Nation 1) / calculateGdp defaultConfig c6Nation 1 :=
  calculateGdp_labor_elasticity_exceeds_capital defaultConfig c6Nation 1
    (by norm_num [defaultConfig])
    (by norm_num [effectiveLabor, workingAgeRatio, humanCapital, c6Nation, baseNation])
    (by norm_num [tfpA, defaultConfig, Config.realismMultiplier, c6Nation, baseNation])
    one_pos
    c6_raw_base_bounds.1 c6_raw_base_bounds.2
    c6_raw_cap_bounds.1 c6_raw_cap_bounds.2
    c6_raw_pop_bounds.1 c6_raw_pop_bounds.2

/-! ## Combat resolution (src/combat.py, WarSystem._resolve_combat) -/

/-- Terminal war outcomes returned by _resolve_combat. -/
inductive Outcome : Type
  | attackerVictory
  | defenderVictory
  | stalemate
  | nuclearExchange
deriving DecidableEq, Repr

/-- WarSystem._calculate_combat_strength (src/combat.py lines 247-272):
branch-weighted strength, the attacker supply-line penalty, and the
log10 manpower factor. -/
noncomputable def combatStrength (n : Nation) (isAttacker : Bool) (distance : ℚ) : ℝ :=
  let strengthBase : ℚ :=
    if isAttacker then
      n.military.army * 0.3 + n.military.navy * 0.4 + n.military.air * 0.3
    else
      n.military.army * 0.5 + n.military.navy * 0.25 + n.military.air * 0.25
  let strength : ℚ :=
    if isAttacker then strengthBase * (1 - max 0 (min 0.8 (distance / 100)))
    else strengthBase
  let safePop : ℚ := max 1 n.population
  (strength : ℝ) * (1 + Real.logb 10 ((safePop : ℝ) / 1e6) / 10)

/-- The state mutations and return value of one WarSystem._resolve_combat
call on a war record. -/
structure CombatEffects : Type where
  attackerPop : ℝ
  defenderPop : ℝ
  attackerGdp : ℝ
  defenderGdp : ℝ
  attackerExh : ℚ
  defenderExh : ℚ
  outcome : Option Outcome

/-- WarSystem._resolve_combat (src/combat.py lines 171-245) together with the
nuclear branch _nuclear_exchange (lines 274-295).  duration is the war
duration after the increment done by resolve_wars; the uniform draws of the
source are passed as parameters: nuclearDraw for the 5 percent nuclear check,
econA in [0.95, 0.98] and econB in [0.90, 0.95] for economic damage, exhBase
in [2, 5] for exhaustion, and nPopA, nPopB, nGdpA, nGdpB for the nuclear
damage fractions.  Outcome none means the war continues. -/
noncomputable def resolveCombat (attacker defender : Nation) (duration : ℕ)
    (intensity dist nuclearDraw econA econB exhBase nPopA nPopB nGdpA nGdpB : ℚ) :
    CombatEffects :=
  let attackerStrength0 := combatStrength attacker true dist
  let defenderStrength0 := combatStrength defender false 0
  let techRa : ℚ := (attacker.technology + 1) / (defender.technology + 1)
  let logisticsRa : ℝ :=
    ((attacker.gdp : ℝ) / ((max 1 defender.gdp : ℚ) : ℝ)) ^ (0.3 : ℝ)
  let attackerStrength := attackerStrength0 * (techRa : ℝ) * logisticsRa
    * (1 - (attacker.warExhaustion : ℝ) / 200)
  let defenderStrength := defenderStrength0
    * (1 - (defender.warExhaustion : ℝ) / 200) * 1.3
  if 10 < attacker.military.nuclear ∧ nuclearDraw < 0.05 then
    { attackerPop := (attacker.population : ℝ) * (nPopA : ℝ)
      defenderPop := (defender.population : ℝ) * (nPopB : ℝ)
      attackerGdp := (attacker.gdp : ℝ) * (nGdpA : ℝ)
      defenderGdp := (defender.gdp : ℝ) * (nGdpB : ℝ)
      attackerExh := attacker.warExhaustion
      defenderExh := defender.warExhaustion
      outcome := some Outcome.nuclearExchange }
  else
    let attackerCasualties := defenderStrength ^ (2 : ℕ) * (intensity : ℝ) * 0.01
    let defenderCasualties := attackerStrength ^ (2 : ℕ) * (intensity : ℝ) * 0.01
    let attExh := attacker.warExhaustion
      + exhBase * (if attacker.government = GovType.democracy then 1.5 else 1)
    let defExh := defender.warExhaustion
      + exhBase * (if defender.government = GovType.democracy then 1.2 else 0.8)
    let outcome : Option Outcome :=
      if duration < 3 then none
      else if 12 < duration ∨ 80 < attExh ∨ 80 < defExh then
        if defenderStrength * 1.5 < attackerStrength then some Outcome.attackerVictory
        else if attackerStrength * 1.5 < defenderStrength then some Outcome.defenderVictory
        else some Outcome.stalemate
      else none
    { attackerPop := (attacker.population : ℝ) - attackerCasualties
      defenderPop := (defender.population : ℝ) - defenderCasualties
      attackerGdp := (attacker.gdp : ℝ) * (econA : ℝ)
      defenderGdp := (defender.gdp : ℝ) * (econB : ℝ)
      attackerExh := attExh
      defenderExh := defExh
      outcome := outcome }

/-- C4 (amended): while the elapsed war duration is below 3, _resolve_combat
never returns a conventional terminal outcome: the result is either none
(war continues) or the nuclear-exchange outcome, whose check precedes the
minimum-duration guard. -/
theorem resolveCombat_before_three_steps (attacker defender : Nation) (duration : ℕ)
    (intensity dist nuclearDraw econA econB exhBase nPopA nPopB nGdpA nGdpB : ℚ)
    (h : duration < 3) :
    (resolveCombat attacker defender duration intensity dist nuclearDraw econA econB
        exhBase nPopA nPopB nGdpA nGdpB).outcome = none ∨
      (resolveCombat attacker defender duration intensity dist nuclearDraw econA econB
        exhBase nPopA nPopB nGdpA nGdpB).outcome = some Outcome.nuclearExchange := by
  unfold resolveCombat
  by_cases hnuc : 10 < attacker.military.nuclear ∧ nuclearDraw < 0.05
  · rw [if_pos hnuc]
    right
    rfl
  · rw [if_neg hnuc]
    left
    simp only
    rw [if_pos h]

/-- C4 witness: the amended theorem at concrete inputs with duration 1. -/
theorem resolveCombat_before_three_steps_witness :
    (resolveCombat baseNation baseNation 1 0.8 10 1 0.96 0.92 3 1 1 1 1).outcome = none ∨
      (resolveCombat baseNation baseNation 1 0.8 10 1 0.96 0.92 3 1 1 1
        1).outcome = some Outcome.nuclearExchange :=
  resolveCombat_before_three_steps baseNation baseNation 1 0.8 10 1 0.96 0.92 3 1 1 1 1
    (by norm_num)

/-- C4 counterexample: with an attacker holding nuclear power 20 and the
5 percent nuclear draw succeeding, _resolve_combat returns the terminal
nuclear_exchange outcome at duration 1, refuting the claim that no war
resolves with an outcome applied before 3 elapsed steps. -/
theorem resolveCombat_nuclear_end_at_duration_one :
    (resolveCombat { baseNation with military := ⟨100, 100, 100, 20⟩ } baseNation 1
        0.8 10 0.01 0.96 0.92 3 0.4 0.3 0.3 0.2).outcome =
      some Outcome.nuclearExchange ∧ 1 < 3 := by
  constructor
  · unfold resolveCombat
    rw [if_pos (by norm_num [baseNation] : 10 <
      ({ baseNation with military := ⟨100, 100, 100, 20⟩ } : Nation).military.nuclear
        ∧ (0.01 : ℚ) < 0.05)]
  · norm_num

/-- C1 (code bug): a worked combat step in which the attacker enters with
population 1e6 and leaves with a strictly negative population: the casualty
subtraction at src/combat.py line 211 has no floor.  Both sides have equal
technology (ratio 1), equal GDP (logistics ratio 1), population exactly 1e6
(log10 manpower factor 1) and zero exhaustion; the defender military of
40000 per branch gives defender strength 52000 after the 1.3 home bonus, so
attacker casualties are 52000^2 times 0.8 times 0.01, about 2.16e7. -/
theorem resolveCombat_negative_population :
    ({ baseNation with military := ⟨100, 100, 100, 0⟩ } : Nation).population = 1e6 ∧
    (resolveCombat { baseNation with military := ⟨100, 100, 100, 0⟩ }
        { baseNation with military := ⟨40000, 40000, 40000, 0⟩ } 4
        0.8 10 1 0.96 0.92 3 1 1 1 1).attackerPop < 0 := by
  constructor
  · norm_num [baseNation]
  · unfold resolveCombat
    rw [if_neg (by norm_num [baseNation])]
    simp only [combatStrength, baseNation]
    norm_num

/-! ## Alliance updates (src/world.py, World._update_alliances) -/

/-- The body of World._update_alliances for one ordered pair of nations
(src/world.py lines 463-498): liveness guards, the capacity checks against
the cap of 10, mutual-consent formation, and probabilistic decay.  tradeA and
tradeB are the trade-partner counts; d1, d2 are the consent draws, d3 the
decay draw, d4 the ideology-drift draw. -/
def updateAlliancePair (na nb : Nation) (tradeA tradeB : ℕ) (d1 d2 d3 d4 : ℚ) :
    Nation × Nation :=
  if na.population = 0 ∨ nb.population = 0 then (na, nb)
  else
    let aHasCapacity := na.alliances.card < 10
    let bHasCapacity := nb.alliances.card < 10
    let proximityA := 1 - |na.ideology - nb.ideology| / 200
    let probA := proximityA * 0.02 + (tradeA : ℚ) * 0.001
    let proximityB := 1 - |nb.ideology - na.ideology| / 200
    let probB := proximityB * 0.02 + (tradeB : ℚ) * 0.001
    if d1 < probA ∧ d2 < probB then
      if nb.id ∉ na.alliances ∧ aHasCapacity ∧ bHasCapacity then
        ({ na with alliances := insert nb.id na.alliances },
          { nb with alliances := insert na.id nb.alliances })
      else (na, nb)
    else if d3 < 0.02 then
      if nb.id ∈ na.alliances then
        if d4 < 1 - proximityA then
          ({ na with alliances := na.alliances.erase nb.id },
            { nb with alliances := nb.alliances.erase na.id })
        else (na, nb)
      else (na, nb)
    else (na, nb)

/-- The alliance-formation path of _update_alliances preserves the cap of 10:
it only adds a member when both sides have strictly fewer than 10. -/
theorem updateAlliancePair_preserves_cap (na nb : Nation) (tradeA tradeB : ℕ)
    (d1 d2 d3 d4 : ℚ)
    (ha : na.alliances.card ≤ 10) (hb : nb.alliances.card ≤ 10) :
    (updateAlliancePair na nb tradeA tradeB d1 d2 d3 d4).1.alliances.card ≤ 10 ∧
      (updateAlliancePair na nb tradeA tradeB d1 d2 d3 d4).2.alliances.card ≤ 10 := by
  unfold updateAlliancePair
  dsimp only
  split
  · exact ⟨ha, hb⟩
  · split
    · split
      · rename_i hcond
        obtain ⟨_, hcapA, hcapB⟩ := hcond
        constructor
        · simpa using le_trans (Finset.card_insert_le _ _) (by omega)
        · simpa using le_trans (Finset.card_insert_le _ _) (by omega)
      · exact ⟨ha, hb⟩
    · split
      · split
        · split
          · constructor
            · simpa using le_trans Finset.card_erase_le ha
            · simpa using le_trans Finset.card_erase_le hb
          · exact ⟨ha, hb⟩
        · exact ⟨ha, hb⟩
      · exact ⟨ha, hb⟩

/-! ## Colonial independence (src/economy.py,
GlobalEconomy.process_colonial_relations) -/

/-- The independence branch of process_colonial_relations for one colonizer
and one subject (src/economy.py lines 286-331): the stability guard, then
the anti-colonial coalition-bonus loop of lines 301-305.  That loop's body
reads the name nations_dict (line 303), which is assigned nowhere in the
method, at module level, or as a builtin (the assignments at economy.py
lines 146 and 374 are locals of other methods), so the first iteration
whose id differs from the subject's raises NameError; the raise is
modelled as none.  When no other subject exists the loop contributes
nothing, the revolt draw is taken against the base probability, and on
revolt the independence effects of lines 310-313 apply; the coalition
alliance-formation loop of lines 325-331 again raises NameError (line 327)
on any remaining other subject and otherwise never runs, so no path adds
an alliance member.  The FDI seizure bookkeeping of lines 316-323 touches
only FDI fields and is outside this fragment. -/
def processIndependence (colonizer subject : Nation) (revoltDraw : ℚ) :
    Option (Nation × Nation) :=
  if subject.stability < 50 then some (colonizer, subject)
  else if (colonizer.colonialSubjects.filter
      (fun oid => oid ≠ subject.id)).Nonempty then
    none
  else
    let techFactor := (subject.technology / 100) ^ 2
    let weaknessFactor := (100 - colonizer.stability) / 100
    let ideologyDiff := |colonizer.ideology - subject.ideology| / 200
    let revoltProb := 0.05 * techFactor * (1 + weaknessFactor)
      * (1 + ideologyDiff) + min 0.1 0
    if revoltDraw < revoltProb then
      let colonizerAfter := { colonizer with
        colonialSubjects := colonizer.colonialSubjects.erase subject.id
        stability := colonizer.stability - 10 }
      if (colonizerAfter.colonialSubjects.filter
          (fun oid => oid ≠ subject.id)).Nonempty then
        none
      else
        some (colonizerAfter,
          { subject with
            stability := subject.stability + 15
            ideology := subject.ideology - colonizer.ideology * 0.3 })
    else some (colonizer, subject)

/-- The colonizer of the C5 scenario: stability 50, two colonial subjects. -/
def c5Colonizer : Nation :=
  { baseNation with
      id := 30
      stability := 50
      colonialSubjects := {20, 21} }

/-- The subject of the C5 scenario: already at the alliance cap, stable and
high-technology enough to organise. -/
def c5Subject : Nation :=
  { baseNation with
      id := 20
      stability := 60
      technology := 80
      alliances := {0, 1, 2, 3, 4, 5, 6, 7, 8, 9} }

/-- A colonizer holding the C5 subject as its only colonial subject: the
single shape on which process_colonial_relations reaches the revolt draw
without raising NameError. -/
def c5LoneColonizer : Nation :=
  { baseNation with
      id := 30
      stability := 50
      colonialSubjects := {20} }

/-- C5 (code bug): the anti-colonial coalition formation the claim cites is
unreachable.  process_colonial_relations reads the never-assigned name
nations_dict inside the coalition-bonus loop (src/economy.py line 303), so
with a colonizer holding any other subject the function raises NameError
before the revolt draw: the result is none for a draw below (0.01) and
above (0.9) the revolt probability alike, and the step crashes instead of
running to completion.  On the only shape that reaches the draw, a
colonizer with no other subject, the revolt succeeds (subject stability
rises 60 to 75) but the alliance additions of lines 330-331 never execute:
the subject keeps exactly its previous alliance set of 10 members, so this
operation can never push an alliance set to 11. -/
theorem independence_nameError_before_draw :
    processIndependence c5Colonizer c5Subject 0.01 = none ∧
    processIndependence c5Colonizer c5Subject 0.9 = none ∧
    (processIndependence c5LoneColonizer c5Subject 0.01).map
      (fun out => out.2.stability) = some 75 ∧
    (processIndependence c5LoneColonizer c5Subject 0.01).map
      (fun out => out.2.alliances) = some c5Subject.alliances ∧
    (processIndependence c5LoneColonizer c5Subject 0.01).map
      (fun out => out.2.alliances.card) = some 10 := by
  have hstab : ¬ (c5Subject.stability < 50) := by
    norm_num [c5Subject, baseNation]
  have hne : (c5Colonizer.colonialSubjects.filter
      (fun oid => oid ≠ c5Subject.id)).Nonempty := by decide
  have hcrash : ∀ d : ℚ, processIndependence c5Colonizer c5Subject d = none := by
    intro d
    unfold processIndependence
    rw [if_neg hstab, if_pos hne]
  have hempty : ¬ (c5LoneColonizer.colonialSubjects.filter
      (fun oid => oid ≠ c5Subject.id)).Nonempty := by decide
  have hdraw : (0.01 : ℚ) < 0.05 * ((c5Subject.technology / 100) ^ 2)
      * (1 + (100 - c5LoneColonizer.stability) / 100)
      * (1 + |c5LoneColonizer.ideology - c5Subject.ideology| / 200)
      + min 0.1 0 := by
    norm_num [c5Subject, c5LoneColonizer, baseNation, min_def]
  have hempty2 : ¬ ((c5LoneColonizer.colonialSubjects.erase c5Subject.id).filter
      (fun oid => oid ≠ c5Subject.id)).Nonempty := by decide
  have hrev : processIndependence c5LoneColonizer c5Subject 0.01 =
      some ({ c5LoneColonizer with
          colonialSubjects := c5LoneColonizer.colonialSubjects.erase c5Subject.id
          stability := c5LoneColonizer.stability - 10 },
        { c5Subject with
          stability := c5Subject.stability + 15
          ideology := c5Subject.ideology - c5LoneColonizer.ideology * 0.3 }) := by
    unfold processIndependence
    rw [if_neg hstab, if_neg hempty]
    dsimp only
    rw [if_pos hdraw, if_neg hempty2]
  refine ⟨hcrash 0.01, hcrash 0.9, ?_, ?_, ?_⟩
  · rw [hrev]
    dsimp only [Option.map]
    norm_num [c5Subject, baseNation]
  · rw [hrev]
    dsimp only [Option.map]
  · rw [hrev]
    dsimp only [Option.map]
    decide

/-! ## War outcome application (src/combat.py, WarSystem._apply_war_outcome) -/

/-- WarSystem._apply_war_outcome restricted to the two principals
(src/combat.py lines 297-357): war flags cleared unconditionally, then the
outcome branch; annexation transfers population, GDP and resources to the
attacker and zeroes the defender population.  annexDraw is the 30 percent
annexation draw and gaussDraw the ideology-shift draw.  The ally loop of
lines 305-311 only clears the is_at_war flag of living allies and touches no
alliance set. -/
def applyWarOutcome (attacker defender : Nation) (result : Outcome)
    (annexDraw gaussDraw : ℚ) : Nation × Nation :=
  let attacker0 := { attacker with isAtWar := false }
  let defender0 := { defender with isAtWar := false }
  match result with
  | Outcome.attackerVictory =>
    if annexDraw < 0.3 then
      ({ attacker0 with
          population := attacker0.population + defender0.population * 0.7
          gdp := attacker0.gdp + defender0.gdp * 0.5
          resources := fun s => match defender0.resources s with
            | some v => some ((attacker0.resources s).getD 0 + v)
            | none => attacker0.resources s },
        { defender0 with population := 0 })
    else
      ({ attacker0 with
          gdp := attacker0.gdp + defender0.gdp * 0.1 * 0.7
          colonialSubjects := insert defender.id attacker0.colonialSubjects },
        { defender0 with
          government := attacker.government
          ideology := attacker.ideology + gaussDraw
          stability := 30
          gdp := defender0.gdp - defender0.gdp * 0.1 })
  | Outcome.defenderVictory =>
      ({ attacker0 with
          stability := attacker.stability - 20
          warExhaustion := 60
          gdp := attacker0.gdp - attacker0.gdp * 0.1 },
        { defender0 with gdp := defender0.gdp + attacker0.gdp * 0.1 * 0.7 })
  | Outcome.nuclearExchange => (attacker0, defender0)
  | Outcome.stalemate =>
      ({ attacker0 with warExhaustion := 50 }, { defender0 with warExhaustion := 50 })

/-- The attacker of the C3 scenario. -/
def c3Attacker : Nation := { baseNation with id := 6 }

/-- The defender of the C3 scenario, allied with nation 7, annexed by the
attacker. -/
def c3Defender : Nation :=
  { baseNation with
      id := 5
      alliances := {7}
      isAtWar := true }

/-- The living third nation of the C3 scenario, allied with the defender. -/
def c3Third : Nation :=
  { baseNation with
      id := 7
      alliances := {5} }

/-- C3 (code bug): annexation zeroes the defender population and clears its
war flag, but no phase of the step removes the dead id from other living
nations' alliance sets: the only alliance-removal site,
World._update_alliances, skips every pair containing a dead nation
(src/world.py lines 466-471), so a third nation allied with the annexed one
still lists the dead id afterwards, even after its alliance-update pass. -/
theorem annexation_leaves_dead_id_in_alliances :
    ((applyWarOutcome c3Attacker c3Defender Outcome.attackerVictory 0.1 0).2).population
        = 0 ∧
      ((applyWarOutcome c3Attacker c3Defender Outcome.attackerVictory 0.1 0).2).isAtWar
        = false ∧
      (5 : ℕ) ∈ c3Third.alliances ∧
      updateAlliancePair c3Third
          ((applyWarOutcome c3Attacker c3Defender Outcome.attackerVictory 0.1 0).2)
          0 0 1 1 1 1 =
        (c3Third,
          (applyWarOutcome c3Attacker c3Defender Outcome.attackerVictory 0.1 0).2) := by
  have hpop : ((applyWarOutcome c3Attacker c3Defender
      Outcome.attackerVictory 0.1 0).2).population = 0 := by
    unfold applyWarOutcome
    dsimp only
    rw [if_pos (by norm_num : (0.1 : ℚ) < 0.3)]
  refine ⟨hpop, ?_, ?_, ?_⟩
  · unfold applyWarOutcome
    dsimp only
    rw [if_pos (by norm_num : (0.1 : ℚ) < 0.3)]
  · decide
  · unfold updateAlliancePair
    rw [if_pos (Or.inr hpop)]

/-! ## A* pathfinding (src/geography.py, HexGrid.find_path)

The Python cost_so_far and came_from dicts are modelled as partial maps
(functions into Option); the heapq frontier as a list from which the
minimum entry under the Python tuple order is popped.  The main loop is
written with fuel, and the fuel bound derived from the grid size is proved
sufficient, which models termination. -/

/-- Per-terrain movement costs, the self.costs table of HexGrid
(src/geography.py lines 41-49). -/
def moveCost : Terrain → ℚ
  | Terrain.ocean => 1
  | Terrain.plains => 1
  | Terrain.forest => 1.5
  | Terrain.desert => 2
  | Terrain.mountain => 3
  | Terrain.strait => 1
  | Terrain.canal => 0.8

/-- Pointwise update of a partial map, modelling Python dict assignment. -/
def fupdate {A : Type} (f : ℤ × ℤ → Option A) (k : ℤ × ℤ) (v : A) :
    ℤ × ℤ → Option A :=
  fun p => if p = k then some v else f p

/-- The Python tuple order on heap entries (priority, (x, y)). -/
def entryLeB (a b : ℚ × (ℤ × ℤ)) : Bool :=
  a.1 < b.1 ∨ (a.1 = b.1 ∧ (a.2.1 < b.2.1 ∨ (a.2.1 = b.2.1 ∧ a.2.2 ≤ b.2.2)))

/-- The minimum heap entry, as heapq.heappop selects it. -/
def minEntry (x : ℚ × (ℤ × ℤ)) (xs : List (ℚ × (ℤ × ℤ))) : ℚ × (ℤ × ℤ) :=
  xs.foldl (fun m e => if entryLeB m e then m else e) x

/-- The A* working state: the heap frontier, cost_so_far and came_from. -/
structure AStarState : Type where
  frontier : List (ℚ × (ℤ × ℤ))
  costs : ℤ × ℤ → Option ℚ
  came : ℤ × ℤ → Option (Option (ℤ × ℤ))

/-- One neighbor relaxation of the A* inner loop (src/geography.py lines
108-121): skip impassable ocean when not naval-capable, otherwise update
cost_so_far, push with priority new_cost + heuristic, and set came_from,
when the neighbor is new or improved. -/
def astarRelax (g : HexGrid) (naval : Bool) (endP current : ℤ × ℤ)
    (s : AStarState) (next : ℤ × ℤ) : AStarState :=
  let t := g.terrain next.1 next.2
  if ¬ naval ∧ t = Terrain.ocean then s
  else
    let newCost := ((s.costs current).getD 0) + moveCost t
    let doUpdate := match s.costs next with
      | none => true
      | some c => decide (newCost < c)
    if doUpdate then
      { frontier := (newCost + ((g.distance endP.1 endP.2 next.1 next.2 : ℤ) : ℚ),
          next) :: s.frontier
        costs := fupdate s.costs next newCost
        came := fupdate s.came next (some current) }
    else s

/-- Expansion of all six neighbors of the popped node, in source order. -/
def astarExpand (g : HexGrid) (naval : Bool) (endP current : ℤ × ℤ)
    (s : AStarState) : AStarState :=
  (g.getNeighbors current.1 current.2).foldl (astarRelax g naval endP current) s

/-- The A* main loop (src/geography.py lines 102-121) with fuel: pop the
minimum entry; stop when the end node is popped or the frontier empties;
otherwise expand and continue.  none models fuel exhaustion and is proved
unreachable for the bound used by findPath. -/
def astarLoop (g : HexGrid) (naval : Bool) (endP : ℤ × ℤ) :
    ℕ → AStarState → Option AStarState
  | 0, s => match s.frontier with
    | [] => some s
    | _ :: _ => none
  | fuel + 1, s => match s.frontier with
    | [] => some s
    | x :: xs =>
      let m := minEntry x xs
      let s1 : AStarState := { s with frontier := (x :: xs).erase m }
      if m.2 = endP then some s1
      else astarLoop g naval endP fuel (astarExpand g naval endP m.2 s1)

/-- Path reconstruction (src/geography.py lines 126-134): walk came_from
from the end back to the start, collecting nodes; the source appends and
reverses, which yields the same start-to-end order. -/
def reconFuel (came : ℤ × ℤ → Option (Option (ℤ × ℤ))) (start : ℤ × ℤ) :
    ℕ → ℤ × ℤ → Option (List (ℤ × ℤ))
  | 0, _ => none
  | fuel + 1, v =>
    if v = start then some [start]
    else match came v with
      | some (some u) => (reconFuel came start fuel u).map (fun p => p ++ [v])
      | _ => none

/-- The capacity bound used for cost values: every cost_so_far value stays
at or below 3 per key, and there are at most width*height+1 keys. -/
def costCap (g : HexGrid) : ℕ := 30 * (g.width.toNat * g.height.toNat + 1) + 1

/-- The fuel bound for the main loop. -/
def fuelBound (g : HexGrid) : ℕ :=
  2 + 7 * costCap g * (g.width.toNat * g.height.toNat + 1)

/-- The initial A* state for a given start (src/geography.py lines 97-100). -/
def initState (start : ℤ × ℤ) : AStarState where
  frontier := [(0, start)]
  costs := fun p => if p = start then some 0 else none
  came := fun p => if p = start then some none else none

/-- HexGrid.find_path (src/geography.py lines 91-134): run the A* loop,
return none when the end never entered came_from, otherwise reconstruct. -/
def findPath (g : HexGrid) (start endP : ℤ × ℤ) (naval : Bool) :
    Option (List (ℤ × ℤ)) :=
  match astarLoop g naval endP (fuelBound g) (initState start) with
  | none => none
  | some st =>
    if (st.came endP).isSome then reconFuel st.came start (costCap g) endP
    else none

/-- Reachability from the start under the passability constraint: a step may
move to any wrapped neighbor whose terrain is passable (ocean blocks the
step exactly when naval capability is off).  find_path explores precisely
this closure. -/
inductive Reach (g : HexGrid) (naval : Bool) (start : ℤ × ℤ) : ℤ × ℤ → Prop
  | base : Reach g naval start start
  | step : ∀ u v, Reach g naval start u → v ∈ g.getNeighbors u.1 u.2 →
      ¬ (¬ naval ∧ g.terrain v.1 v.2 = Terrain.ocean) → Reach g naval start v

/-- Cost values are nonnegative multiples of one tenth. -/
def deci (q : ℚ) : Prop := ∃ n : ℕ, q = (n : ℚ) / 10

/-- The scaled integer form of a cost value, for the termination measure. -/
def scaled (q : ℚ) : ℕ := (q * 10).num.toNat

theorem scaled_natDiv (n : ℕ) : scaled ((n : ℚ) / 10) = n := by
  unfold scaled
  rw [div_mul_cancel₀ _ (by norm_num : (10 : ℚ) ≠ 0)]
  simp

theorem deci_nonneg {q : ℚ} (h : deci q) : 0 ≤ q := by
  obtain ⟨n, rfl⟩ := h
  positivity

theorem deci_add {a b : ℚ} (ha : deci a) (hb : deci b) : deci (a + b) := by
  obtain ⟨m, rfl⟩ := ha
  obtain ⟨n, rfl⟩ := hb
  exact ⟨m + n, by push_cast; ring⟩

theorem deci_moveCost (t : Terrain) : deci (moveCost t) := by
  cases t
  · exact ⟨10, by norm_num [moveCost]⟩
  · exact ⟨10, by norm_num [moveCost]⟩
  · exact ⟨30, by norm_num [moveCost]⟩
  · exact ⟨20, by norm_num [moveCost]⟩
  · exact ⟨15, by norm_num [moveCost]⟩
  · exact ⟨10, by norm_num [moveCost]⟩
  · exact ⟨8, by norm_num [moveCost]⟩

theorem moveCost_pos (t : Terrain) : 0 < moveCost t := by
  cases t <;> norm_num [moveCost]

theorem moveCost_le_three (t : Terrain) : moveCost t ≤ 3 := by
  cases t <;> norm_num [moveCost]

theorem scaled_lt_scaled {a b : ℚ} (ha : deci a) (hb : deci b) (h : a < b) :
    scaled a < scaled b := by
  obtain ⟨m, rfl⟩ := ha
  obtain ⟨n, rfl⟩ := hb
  rw [scaled_natDiv, scaled_natDiv]
  have : (m : ℚ) < n := by
    have := (div_lt_div_iff_of_pos_right (by norm_num : (0:ℚ) < 10)).1 h
    exact this
  exact_mod_cast this

/-- The key universe: all in-bounds cells plus the start node. -/
def cellsU (g : HexGrid) (start : ℤ × ℤ) : Finset (ℤ × ℤ) :=
  insert start ((Finset.Ico 0 g.width) ×ˢ (Finset.Ico 0 g.height))

theorem card_cellsU (g : HexGrid) (start : ℤ × ℤ) :
    (cellsU g start).card ≤ g.width.toNat * g.height.toNat + 1 := by
  unfold cellsU
  calc (insert start ((Finset.Ico 0 g.width) ×ˢ (Finset.Ico 0 g.height))).card ≤
      ((Finset.Ico 0 g.width) ×ˢ (Finset.Ico 0 g.height)).card + 1 :=
        Finset.card_insert_le _ _
    _ = g.width.toNat * g.height.toNat + 1 := by
        rw [Finset.card_product, Int.card_Ico, Int.card_Ico]
        simp

/-- The number of assigned cost keys inside the universe. -/
def numKeys (g : HexGrid) (start : ℤ × ℤ) (costs : ℤ × ℤ → Option ℚ) : ℕ :=
  ((cellsU g start).filter (fun v => (costs v).isSome)).card

/-- The per-cell potential: the scaled cost when assigned, the cap when not. -/
def fval (g : HexGrid) (costs : ℤ × ℤ → Option ℚ) (v : ℤ × ℤ) : ℕ :=
  match costs v with
  | some q => scaled q
  | none => costCap g

/-- The loop potential. -/
def mu1 (g : HexGrid) (start : ℤ × ℤ) (costs : ℤ × ℤ → Option ℚ) : ℕ :=
  Finset.sum (cellsU g start) (fval g costs)

/-- The loop measure: strictly decreases at every iteration. -/
def measureM (g : HexGrid) (start : ℤ × ℤ) (s : AStarState) : ℕ :=
  s.frontier.length + 7 * mu1 g start s.costs

theorem numKeys_le (g : HexGrid) (start : ℤ × ℤ) (costs : ℤ × ℤ → Option ℚ) :
    numKeys g start costs ≤ g.width.toNat * g.height.toNat + 1 :=
  le_trans (Finset.card_filter_le _ _) (card_cellsU g start)

theorem scaled_lt_cap (g : HexGrid) {q : ℚ} (hd : deci q)
    (hb : q ≤ 3 * ((g.width.toNat * g.height.toNat : ℕ) + 1)) :
    scaled q < costCap g := by
  obtain ⟨n, rfl⟩ := hd
  rw [scaled_natDiv]
  unfold costCap
  have h2 : (n : ℚ) ≤ 30 * ((g.width.toNat * g.height.toNat : ℕ) + 1) := by
    rw [div_le_iff₀ (by norm_num : (0:ℚ) < 10)] at hb
    calc (n : ℚ) ≤ 3 * ((g.width.toNat * g.height.toNat : ℕ) + 1) * 10 := hb
      _ = 30 * ((g.width.toNat * g.height.toNat : ℕ) + 1) := by ring
  have h3 : n ≤ 30 * (g.width.toNat * g.height.toNat + 1) := by exact_mod_cast h2
  omega

theorem fupdate_self {A : Type} (f : ℤ × ℤ → Option A) (k : ℤ × ℤ) (v : A) :
    fupdate f k v k = some v := if_pos rfl

theorem fupdate_ne {A : Type} (f : ℤ × ℤ → Option A) (k : ℤ × ℤ) (v : A)
    {p : ℤ × ℤ} (h : p ≠ k) : fupdate f k v p = f p := if_neg h

theorem fupdate_isSome_mono {A : Type} (f : ℤ × ℤ → Option A) (k : ℤ × ℤ) (v : A)
    (p : ℤ × ℤ) (h : (f p).isSome) : (fupdate f k v p).isSome := by
  unfold fupdate
  by_cases hp : p = k
  · simp [hp]
  · simpa [hp] using h

/-- Inserting a fresh key grows the key count by one. -/
theorem numKeys_fupdate_none (g : HexGrid) (start : ℤ × ℤ)
    (costs : ℤ × ℤ → Option ℚ) {k : ℤ × ℤ} (v : ℚ)
    (hk : costs k = none) (hkU : k ∈ cellsU g start) :
    numKeys g start (fupdate costs k v) = numKeys g start costs + 1 := by
  unfold numKeys
  have hset : (cellsU g start).filter (fun p => (fupdate costs k v p).isSome) =
      insert k ((cellsU g start).filter (fun p => (costs p).isSome)) := by
    ext p
    simp only [Finset.mem_filter, Finset.mem_insert]
    constructor
    · rintro ⟨hpU, hps⟩
      by_cases hp : p = k
      · exact Or.inl hp
      · rw [fupdate_ne _ _ _ hp] at hps
        exact Or.inr ⟨hpU, hps⟩
    · rintro (rfl | ⟨hpU, hps⟩)
      · exact ⟨hkU, by simp [fupdate_self]⟩
      · refine ⟨hpU, ?_⟩
        by_cases hp : p = k
        · subst hp
          simp [fupdate_self]
        · rwa [fupdate_ne _ _ _ hp]
  rw [hset, Finset.card_insert_of_not_mem]
  simp [hk]

/-- Updating an existing key keeps the key count. -/
theorem numKeys_fupdate_some (g : HexGrid) (start : ℤ × ℤ)
    (costs : ℤ × ℤ → Option ℚ) {k : ℤ × ℤ} (v : ℚ)
    (hk : (costs k).isSome) :
    numKeys g start (fupdate costs k v) = numKeys g start costs := by
  unfold numKeys
  congr 1
  apply Finset.filter_congr
  intro p _
  by_cases hp : p = k
  · subst hp
    simp [fupdate_self, hk]
  · rw [fupdate_ne _ _ _ hp]

/-- The potential strictly drops when one universe cell strictly improves
and all others are unchanged. -/
theorem mu1_lt_of_update (g : HexGrid) (start : ℤ × ℤ)
    (costs costsT : ℤ × ℤ → Option ℚ) {k : ℤ × ℤ} (hkU : k ∈ cellsU g start)
    (hlt : fval g costsT k < fval g costs k)
    (hagree : ∀ v, v ≠ k → costsT v = costs v) :
    mu1 g start costsT < mu1 g start costs := by
  unfold mu1
  apply Finset.sum_lt_sum
  · intro i _
    by_cases hi : i = k
    · subst hi
      exact le_of_lt hlt
    · unfold fval
      rw [hagree i hi]
  · exact ⟨k, hkU, hlt⟩

/-- Wrapped neighbors are always in bounds on a positive-dimension grid. -/
theorem getNeighbors_inbounds (g : HexGrid) (hw : 0 < g.width) (hh : 0 < g.height)
    (x y : ℤ) : ∀ p ∈ g.getNeighbors x y,
      0 ≤ p.1 ∧ p.1 < g.width ∧ 0 ≤ p.2 ∧ p.2 < g.height := by
  intro p hp
  unfold HexGrid.getNeighbors at hp
  simp only [List.mem_map] at hp
  obtain ⟨d, _, hd⟩ := hp
  subst hd
  exact ⟨Int.emod_nonneg _ (by omega), Int.emod_lt_of_pos _ hw,
    Int.emod_nonneg _ (by omega), Int.emod_lt_of_pos _ hh⟩

theorem mem_cellsU_of_inbounds (g : HexGrid) (start p : ℤ × ℤ)
    (h1 : 0 ≤ p.1) (h2 : p.1 < g.width) (h3 : 0 ≤ p.2) (h4 : p.2 < g.height) :
    p ∈ cellsU g start :=
  Finset.mem_insert_of_mem (Finset.mem_product.2
    ⟨Finset.mem_Ico.2 ⟨h1, h2⟩, Finset.mem_Ico.2 ⟨h3, h4⟩⟩)

/-- The loop invariant of the A* state: keys live inside the universe, all
cost values are bounded multiples of one tenth, the frontier and came_from
point at assigned keys, came_from parents strictly decrease in cost, every
key is reachable, and the start keeps cost zero. -/
structure AInv (g : HexGrid) (naval : Bool) (start : ℤ × ℤ) (s : AStarState) :
    Prop where
  keysU : ∀ v, (s.costs v).isSome → v ∈ cellsU g start
  valsDeci : ∀ v q, s.costs v = some q → deci q
  valsBound : ∀ v q, s.costs v = some q → q ≤ 3 * numKeys g start s.costs
  frontierKeys : ∀ p ∈ s.frontier, (s.costs p.2).isSome
  cameIffCosts : ∀ v, (s.came v).isSome ↔ (s.costs v).isSome
  cameStart : ∀ v, s.came v = some none → v = start
  cameParent : ∀ v u, s.came v = some (some u) →
    ∃ qu qv, s.costs u = some qu ∧ s.costs v = some qv ∧ qu < qv
  keysReach : ∀ v, (s.costs v).isSome → Reach g naval start v
  costsStart : s.costs start = some 0

/-- The initial state satisfies the invariant. -/
theorem initState_inv (g : HexGrid) (naval : Bool) (start : ℤ × ℤ) :
    AInv g naval start (initState start) := by
  refine ⟨?_, ?_, ?_, ?_, ?_, ?_, ?_, ?_, ?_⟩
  · intro v hv
    unfold initState at hv
    by_cases h : v = start
    · subst h; exact Finset.mem_insert_self _ _
    · simp [h] at hv
  · intro v q hv
    unfold initState at hv
    by_cases h : v = start
    · subst h
      simp at hv
      exact ⟨0, by simp [← hv]⟩
    · simp [h] at hv
  · intro v q hv
    unfold initState at hv
    by_cases h : v = start
    · subst h
      simp at hv
      subst hv
      positivity
    · simp [h] at hv
  · intro p hp
    unfold initState at hp
    simp at hp
    subst hp
    simp [initState]
  · intro v
    unfold initState
    by_cases h : v = start <;> simp [h]
  · intro v hv
    unfold initState at hv
    by_cases h : v = start
    · exact h
    · simp [h] at hv
  · intro v u hv
    unfold initState at hv
    by_cases h : v = start <;> simp [h] at hv
  · intro v hv
    unfold initState at hv
    by_cases h : v = start
    · subst h; exact Reach.base
    · simp [h] at hv
  · simp [initState]

/-- The effect of one successful relaxation: the invariant is preserved and
the measure does not grow (the potential strictly drops, paying for the
pushed frontier entry). -/
theorem astarUpdate_spec (g : HexGrid) (naval : Bool) (start current next : ℤ × ℤ)
    (s : AStarState) (qc newCost pr : ℚ)
    (hw : 0 < g.width) (hh : 0 < g.height)
    (hnext : next ∈ g.getNeighbors current.1 current.2)
    (inv : AInv g naval start s)
    (hqc : s.costs current = some qc)
    (hreach : Reach g naval start current)
    (hpass : ¬ (¬ naval ∧ g.terrain next.1 next.2 = Terrain.ocean))
    (hnc : newCost = qc + moveCost (g.terrain next.1 next.2))
    (hcase : s.costs next = none ∨ ∃ c, s.costs next = some c ∧ newCost < c) :
    AInv g naval start ⟨(pr, next) :: s.frontier, fupdate s.costs next newCost,
        fupdate s.came next (some current)⟩ ∧
      measureM g start ⟨(pr, next) :: s.frontier, fupdate s.costs next newCost,
        fupdate s.came next (some current)⟩ ≤ measureM g start s := by
  have hdq : deci qc := inv.valsDeci _ _ hqc
  have hmc := moveCost_pos (g.terrain next.1 next.2)
  have hmc3 := moveCost_le_three (g.terrain next.1 next.2)
  have hdnew : deci newCost := by
    rw [hnc]; exact deci_add hdq (deci_moveCost _)
  have hqc0 : 0 ≤ qc := deci_nonneg hdq
  have hnewpos : 0 < newCost := by rw [hnc]; linarith
  have hqcb := inv.valsBound current qc hqc
  have hstart_ne : start ≠ next := by
    intro h
    rcases hcase with h0 | ⟨c, hc, hlt⟩
    · rw [← h, inv.costsStart] at h0
      cases h0
    · rw [← h, inv.costsStart] at hc
      injection hc with h2
      rw [← h2] at hlt
      linarith
  have hcur_ne : current ≠ next := by
    intro h
    rcases hcase with h0 | ⟨c, hc, hlt⟩
    · rw [← h, hqc] at h0
      cases h0
    · rw [← h, hqc] at hc
      have hce : qc = c := by injection hc
      rw [← hce, hnc] at hlt
      linarith
  have hinb := getNeighbors_inbounds g hw hh current.1 current.2 next hnext
  have hnextU : next ∈ cellsU g start :=
    mem_cellsU_of_inbounds g start next hinb.1 hinb.2.1 hinb.2.2.1 hinb.2.2.2
  -- key-count and bound facts
  have hnum : numKeys g start s.costs ≤ numKeys g start (fupdate s.costs next newCost) ∧
      newCost ≤ 3 * numKeys g start (fupdate s.costs next newCost) := by
    rcases hcase with h0 | ⟨c, hc, hlt⟩
    · rw [numKeys_fupdate_none g start s.costs newCost h0 hnextU]
      constructor
      · omega
      · rw [hnc]
        push_cast
        linarith
    · rw [numKeys_fupdate_some g start s.costs newCost (by simp [hc])]
      refine ⟨le_refl _, ?_⟩
      calc newCost ≤ c := le_of_lt hlt
        _ ≤ 3 * numKeys g start s.costs := inv.valsBound next c hc
  -- the potential strictly drops at next
  have hfv : fval g (fupdate s.costs next newCost) next < fval g s.costs next := by
    have hself : fupdate s.costs next newCost next = some newCost := fupdate_self _ _ _
    rcases hcase with h0 | ⟨c, hc, hlt⟩
    · unfold fval
      rw [hself, h0]
      exact scaled_lt_cap g hdnew (le_trans hnum.2 (by
        have := numKeys_le g start (fupdate s.costs next newCost)
        push_cast
        exact_mod_cast Nat.mul_le_mul_left 3 this))
    · unfold fval
      rw [hself, hc]
      exact scaled_lt_scaled hdnew (inv.valsDeci next c hc) hlt
  have hmu : mu1 g start (fupdate s.costs next newCost) < mu1 g start s.costs :=
    mu1_lt_of_update g start s.costs _ hnextU hfv
      (fun v hv => fupdate_ne _ _ _ hv)
  constructor
  · refine ⟨?_, ?_, ?_, ?_, ?_, ?_, ?_, ?_, ?_⟩
    all_goals dsimp only
    · intro v hv
      by_cases h : v = next
      · subst h; exact hnextU
      · rw [fupdate_ne _ _ _ h] at hv
        exact inv.keysU v hv
    · intro v q hv
      by_cases h : v = next
      · subst h
        rw [fupdate_self] at hv
        injection hv with hv
        rw [← hv]
        exact hdnew
      · rw [fupdate_ne _ _ _ h] at hv
        exact inv.valsDeci v q hv
    · intro v q hv
      by_cases h : v = next
      · subst h
        rw [fupdate_self] at hv
        injection hv with hv
        rw [← hv]
        exact hnum.2
      · rw [fupdate_ne _ _ _ h] at hv
        calc q ≤ 3 * numKeys g start s.costs := inv.valsBound v q hv
          _ ≤ 3 * numKeys g start (fupdate s.costs next newCost) := by
              have := hnum.1
              push_cast
              exact_mod_cast Nat.mul_le_mul_left 3 this
    · intro p hp
      rcases List.mem_cons.mp hp with h | h
      · rw [h]
        simp [fupdate_self]
      · exact fupdate_isSome_mono _ _ _ _ (inv.frontierKeys p h)
    · intro v
      by_cases h : v = next
      · subst h
        simp [fupdate_self]
      · rw [fupdate_ne _ _ _ h, fupdate_ne _ _ _ h]
        exact inv.cameIffCosts v
    · intro v hv
      by_cases h : v = next
      · subst h
        rw [fupdate_self] at hv
        cases hv
      · rw [fupdate_ne _ _ _ h] at hv
        exact inv.cameStart v hv
    · intro v u hv
      by_cases h : v = next
      · subst h
        rw [fupdate_self] at hv
        injection hv with hv
        injection hv with hv
        subst hv
        refine ⟨qc, newCost, ?_, fupdate_self _ _ _, ?_⟩
        · rw [fupdate_ne _ _ _ hcur_ne]
          exact hqc
        · rw [hnc]
          linarith
      · rw [fupdate_ne _ _ _ h] at hv
        obtain ⟨qu, qv, hu, hvv, hlt⟩ := inv.cameParent v u hv
        by_cases hu2 : u = next
        · subst hu2
          rcases hcase with h0 | ⟨c, hc, hlt2⟩
          · rw [h0] at hu
            cases hu
          · rw [hc] at hu
            injection hu with h3
            subst h3
            refine ⟨newCost, qv, fupdate_self _ _ _, ?_, ?_⟩
            · rw [fupdate_ne _ _ _ h]
              exact hvv
            · linarith
        · refine ⟨qu, qv, ?_, ?_, hlt⟩
          · rw [fupdate_ne _ _ _ hu2]
            exact hu
          · rw [fupdate_ne _ _ _ h]
            exact hvv
    · intro v hv
      by_cases h : v = next
      · subst h
        exact Reach.step current v hreach hnext hpass
      · rw [fupdate_ne _ _ _ h] at hv
        exact inv.keysReach v hv
    · rw [fupdate_ne _ _ _ hstart_ne]
      exact inv.costsStart
  · unfold measureM
    simp only [List.length_cons]
    omega

/-- One relaxation step preserves the invariant, never grows the measure,
and never unassigns a cost key. -/
theorem astarRelax_spec (g : HexGrid) (naval : Bool) (start endP current next : ℤ × ℤ)
    (s : AStarState)
    (hw : 0 < g.width) (hh : 0 < g.height)
    (hnext : next ∈ g.getNeighbors current.1 current.2)
    (inv : AInv g naval start s)
    (hcur : (s.costs current).isSome)
    (hreach : Reach g naval start current) :
    AInv g naval start (astarRelax g naval endP current s next) ∧
      measureM g start (astarRelax g naval endP current s next) ≤ measureM g start s ∧
      ∀ v, (s.costs v).isSome →
        ((astarRelax g naval endP current s next).costs v).isSome := by
  obtain ⟨qc, hqc⟩ := Option.isSome_iff_exists.mp hcur
  have hgd : (s.costs current).getD 0 = qc := by rw [hqc]; rfl
  unfold astarRelax
  by_cases hskip : ¬ naval ∧ g.terrain next.1 next.2 = Terrain.ocean
  · rw [if_pos hskip]
    exact ⟨inv, le_refl _, fun v h => h⟩
  · rw [if_neg hskip]
    dsimp only
    rcases hcn : s.costs next with _ | c
    · simp only [hcn, hgd]
      have hspec := astarUpdate_spec g naval start current next s qc
        (qc + moveCost (g.terrain next.1 next.2))
        (qc + moveCost (g.terrain next.1 next.2) +
          ((g.distance endP.1 endP.2 next.1 next.2 : ℤ) : ℚ))
        hw hh hnext inv hqc hreach hskip rfl (Or.inl hcn)
      refine ⟨hspec.1, hspec.2, ?_⟩
      intro v hv
      exact fupdate_isSome_mono _ _ _ _ hv
    · simp only [hcn, hgd]
      by_cases hlt : qc + moveCost (g.terrain next.1 next.2) < c
      · rw [decide_eq_true hlt, if_pos rfl]
        have hspec := astarUpdate_spec g naval start current next s qc
          (qc + moveCost (g.terrain next.1 next.2))
          (qc + moveCost (g.terrain next.1 next.2) +
            ((g.distance endP.1 endP.2 next.1 next.2 : ℤ) : ℚ))
          hw hh hnext inv hqc hreach hskip rfl (Or.inr ⟨c, hcn, hlt⟩)
        refine ⟨hspec.1, hspec.2, ?_⟩
        intro v hv
        exact fupdate_isSome_mono _ _ _ _ hv
      · rw [decide_eq_false hlt, if_neg Bool.false_ne_true]
        exact ⟨inv, le_refl _, fun v h => h⟩

theorem foldl_min_mem (xs : List (ℚ × (ℤ × ℤ))) (a : ℚ × (ℤ × ℤ)) :
    xs.foldl (fun m e => if entryLeB m e then m else e) a ∈ a :: xs := by
  induction xs generalizing a with
  | nil => simp
  | cons e t ih =>
    simp only [List.foldl_cons]
    cases hE : entryLeB a e
    · rw [if_neg Bool.false_ne_true]
      have := ih e
      rcases List.mem_cons.mp this with h | h
      · rw [h]
        exact List.mem_cons_of_mem a (List.mem_cons_self e t)
      · exact List.mem_cons_of_mem a (List.mem_cons_of_mem e h)
    · rw [if_pos rfl]
      have := ih a
      rcases List.mem_cons.mp this with h | h
      · rw [h]
        exact List.mem_cons_self a (e :: t)
      · exact List.mem_cons_of_mem a (List.mem_cons_of_mem e h)

theorem minEntry_mem (x : ℚ × (ℤ × ℤ)) (xs : List (ℚ × (ℤ × ℤ))) :
    minEntry x xs ∈ x :: xs :=
  foldl_min_mem xs x

/-- Folding relaxations over a list of neighbors preserves the invariant and
never grows the measure. -/
theorem astarFold_spec (g : HexGrid) (naval : Bool) (start endP current : ℤ × ℤ)
    (hw : 0 < g.width) (hh : 0 < g.height)
    (hreach : Reach g naval start current) :
    ∀ (l : List (ℤ × ℤ)) (s : AStarState),
      (∀ p ∈ l, p ∈ g.getNeighbors current.1 current.2) →
      AInv g naval start s → (s.costs current).isSome →
      AInv g naval start (l.foldl (astarRelax g naval endP current) s) ∧
        measureM g start (l.foldl (astarRelax g naval endP current) s) ≤
          measureM g start s := by
  intro l
  induction l with
  | nil =>
    intro s _ inv _
    exact ⟨inv, le_refl _⟩
  | cons e t ih =>
    intro s hmem inv hcur
    simp only [List.foldl_cons]
    obtain ⟨inv1, hm1, hmono⟩ := astarRelax_spec g naval start endP current e s hw hh
      (hmem e (List.mem_cons_self e t)) inv hcur hreach
    obtain ⟨inv2, hm2⟩ := ih (astarRelax g naval endP current s e)
      (fun p hp => hmem p (List.mem_cons_of_mem e hp)) inv1 (hmono current hcur)
    exact ⟨inv2, le_trans hm2 hm1⟩

/-- Expanding the popped node preserves the invariant and never grows the
measure. -/
theorem astarExpand_spec (g : HexGrid) (naval : Bool) (start endP current : ℤ × ℤ)
    (hw : 0 < g.width) (hh : 0 < g.height) (s : AStarState)
    (inv : AInv g naval start s) (hcur : (s.costs current).isSome) :
    AInv g naval start (astarExpand g naval endP current s) ∧
      measureM g start (astarExpand g naval endP current s) ≤ measureM g start s :=
  astarFold_spec g naval start endP current hw hh
    (inv.keysReach current hcur)
    (g.getNeighbors current.1 current.2) s (fun _ hp => hp) inv hcur

/-- The fuel bound is sufficient: the loop always returns a final state, and
the invariant carries to it. -/
theorem astarLoop_spec (g : HexGrid) (naval : Bool) (endP start : ℤ × ℤ)
    (hw : 0 < g.width) (hh : 0 < g.height) :
    ∀ (fuel : ℕ) (s : AStarState), AInv g naval start s →
      measureM g start s < fuel →
      ∃ st, astarLoop g naval endP fuel s = some st ∧ AInv g naval start st := by
  intro fuel
  induction fuel with
  | zero =>
    intro s _ hm
    exact absurd hm (Nat.not_lt_zero _)
  | succ f ih =>
    intro s inv hm
    rcases hfr : s.frontier with _ | ⟨x, xs⟩
    · refine ⟨s, ?_, inv⟩
      simp only [astarLoop]
      rw [hfr]
    · have hmem : minEntry x xs ∈ x :: xs := minEntry_mem x xs
      have hmemS : minEntry x xs ∈ s.frontier := by rw [hfr]; exact hmem
      have hmlen : ((x :: xs).erase (minEntry x xs)).length = xs.length := by
        rw [List.length_erase_of_mem hmem]
        simp
      have inv1 : AInv g naval start
          { s with frontier := (x :: xs).erase (minEntry x xs) } :=
        ⟨inv.keysU, inv.valsDeci, inv.valsBound,
          fun p hp => inv.frontierKeys p
            (by rw [hfr]; exact (List.erase_sublist _ _).subset hp),
          inv.cameIffCosts, inv.cameStart, inv.cameParent, inv.keysReach,
          inv.costsStart⟩
      have hM1 : measureM g start
            { s with frontier := (x :: xs).erase (minEntry x xs) } + 1 =
          measureM g start s := by
        unfold measureM
        dsimp only
        rw [hmlen, hfr]
        simp only [List.length_cons]
        ring
      by_cases hend : (minEntry x xs).2 = endP
      · refine ⟨{ s with frontier := (x :: xs).erase (minEntry x xs) }, ?_, inv1⟩
        simp only [astarLoop]
        rw [hfr]
        dsimp only
        rw [if_pos hend]
      · have hcurS : ((({ s with frontier := (x :: xs).erase (minEntry x xs) } :
            AStarState)).costs (minEntry x xs).2).isSome :=
          inv.frontierKeys _ hmemS
        obtain ⟨inv2, hm2⟩ := astarExpand_spec g naval start endP (minEntry x xs).2
          hw hh _ inv1 hcurS
        obtain ⟨st, hloop, invst⟩ := ih
          (astarExpand g naval endP (minEntry x xs).2
            { s with frontier := (x :: xs).erase (minEntry x xs) }) inv2
          (by omega)
        refine ⟨st, ?_, invst⟩
        simp only [astarLoop]
        rw [hfr]
        dsimp only
        rw [if_neg hend]
        exact hloop

/-- Any successfully reconstructed path runs from the start to the queried
node. -/
theorem reconFuel_endpoints (came : ℤ × ℤ → Option (Option (ℤ × ℤ)))
    (start : ℤ × ℤ) :
    ∀ (fuel : ℕ) (v : ℤ × ℤ) (p : List (ℤ × ℤ)),
      reconFuel came start fuel v = some p →
      p.head? = some start ∧ p.getLast? = some v := by
  intro fuel
  induction fuel with
  | zero =>
    intro v p h
    simp [reconFuel] at h
  | succ f ih =>
    intro v p h
    unfold reconFuel at h
    by_cases hv : v = start
    · rw [if_pos hv] at h
      injection h with h
      subst hv
      rw [← h]
      exact ⟨rfl, rfl⟩
    · rw [if_neg hv] at h
      rcases hc : came v with _ | w
      · rw [hc] at h
        cases h
      · rw [hc] at h
        rcases w with _ | u
        · dsimp only at h
          cases h
        · dsimp only at h
          rcases hr : reconFuel came start f u with _ | p0
          · rw [hr] at h
            cases h
          · rw [hr] at h
            simp only [Option.map_some'] at h
            obtain ⟨hh, hl⟩ := ih u p0 hr
            injection h with h
            rw [← h]
            constructor
            · rcases p0 with _ | ⟨a, t⟩
              · cases hh
              · simpa using hh
            · exact List.getLast?_concat _

/-- Under the invariant, reconstruction always succeeds for an assigned key
within the cost cap, because came_from parents strictly decrease in cost. -/
theorem reconFuel_total (g : HexGrid) (naval : Bool) (start : ℤ × ℤ)
    (s : AStarState) (inv : AInv g naval start s) :
    ∀ (n : ℕ) (v : ℤ × ℤ) (qv : ℚ), s.costs v = some qv → scaled qv < n →
      ∃ p, reconFuel s.came start n v = some p := by
  intro n
  induction n with
  | zero =>
    intro v qv _ h
    exact absurd h (Nat.not_lt_zero _)
  | succ f ih =>
    intro v qv hv hn
    by_cases hs : v = start
    · exact ⟨[start], by unfold reconFuel; rw [if_pos hs]⟩
    · have hsome : (s.came v).isSome := (inv.cameIffCosts v).mpr (by simp [hv])
      rcases hCame : s.came v with _ | w
      · rw [hCame] at hsome
        cases hsome
      · rcases w with _ | u
        · exact absurd (inv.cameStart v hCame) hs
        · obtain ⟨qu, qv2, hu, hv2, hlt⟩ := inv.cameParent v u hCame
          have hq : qv2 = qv := by
            rw [hv] at hv2
            injection hv2 with h2
            exact h2.symm
          subst hq
          have hsc : scaled qu < scaled qv2 :=
            scaled_lt_scaled (inv.valsDeci u qu hu) (inv.valsDeci v qv2 hv) hlt
          obtain ⟨p0, hp0⟩ := ih u qu hu (by omega)
          refine ⟨p0 ++ [v], ?_⟩
          unfold reconFuel
          rw [if_neg hs, hCame]
          dsimp only
          rw [hp0]
          rfl

/-- C8: on any grid with positive dimensions, for every start and end
coordinate and both naval capabilities, find_path terminates (the fuel bound
of the embedded loop is sufficient, so the A* loop always returns a final
state); when the end is unreachable from the start under the passability
constraint it returns the explicit no-path value none; any returned path
begins at the start and ends at the end; and whenever the search reached the
end, reconstruction succeeds, so none is returned only in the no-path case. -/
theorem findPath_spec (g : HexGrid) (start endP : ℤ × ℤ) (naval : Bool)
    (hw : 0 < g.width) (hh : 0 < g.height) :
    astarLoop g naval endP (fuelBound g) (initState start) ≠ none ∧
    (¬ Reach g naval start endP → findPath g start endP naval = none) ∧
    (∀ p, findPath g start endP naval = some p →
      p.head? = some start ∧ p.getLast? = some endP) ∧
    (∀ st, astarLoop g naval endP (fuelBound g) (initState start) = some st →
      (st.came endP).isSome → ∃ p, findPath g start endP naval = some p) := by
  have hM0 : measureM g start (initState start) < fuelBound g := by
    have hfv : ∀ v ∈ cellsU g start,
        fval g (initState start).costs v ≤ costCap g := by
      intro v _
      unfold fval initState
      dsimp only
      by_cases h : v = start
      · rw [if_pos h]
        dsimp only
        have h0 : scaled 0 = 0 := by
          unfold scaled
          norm_num
        omega
      · rw [if_neg h]
    have hsum0 := Finset.sum_le_card_nsmul (cellsU g start)
      (fval g (initState start).costs) (costCap g) hfv
    have hsum : mu1 g start (initState start).costs ≤
        (cellsU g start).card * costCap g := by
      unfold mu1
      simpa [smul_eq_mul] using hsum0
    have hcard := card_cellsU g start
    have hmul : (cellsU g start).card * costCap g ≤
        (g.width.toNat * g.height.toNat + 1) * costCap g :=
      Nat.mul_le_mul_right _ hcard
    have hlen : (initState start).frontier.length = 1 := rfl
    unfold measureM fuelBound
    rw [hlen]
    nlinarith [hsum, hmul]
  obtain ⟨st, hloop, invst⟩ := astarLoop_spec g naval endP start hw hh
    (fuelBound g) (initState start) (initState_inv g naval start) hM0
  refine ⟨?_, ?_, ?_, ?_⟩
  · rw [hloop]
    exact Option.some_ne_none st
  · intro hnr
    unfold findPath
    rw [hloop]
    dsimp only
    rw [if_neg (fun h => hnr (invst.keysReach endP ((invst.cameIffCosts endP).mp h)))]
  · intro p hp
    unfold findPath at hp
    rw [hloop] at hp
    dsimp only at hp
    by_cases hs : (st.came endP).isSome
    · rw [if_pos hs] at hp
      exact reconFuel_endpoints st.came start (costCap g) endP p hp
    · rw [if_neg hs] at hp
      cases hp
  · intro st2 hst2 hsome
    rw [hloop] at hst2
    injection hst2 with hst2
    subst hst2
    have hcs : (st.costs endP).isSome := (invst.cameIffCosts endP).mp hsome
    obtain ⟨qv, hqv⟩ := Option.isSome_iff_exists.mp hcs
    have hql := invst.valsBound endP qv hqv
    have hnk := numKeys_le g start st.costs
    have hscaled : scaled qv < costCap g := by
      apply scaled_lt_cap g (invst.valsDeci endP qv hqv)
      calc qv ≤ 3 * numKeys g start st.costs := hql
        _ ≤ 3 * ((g.width.toNat * g.height.toNat : ℕ) + 1) := by
            push_cast
            exact_mod_cast Nat.mul_le_mul_left 3 hnk
    obtain ⟨p, hp⟩ := reconFuel_total g naval start st invst (costCap g) endP qv
      hqv hscaled
    refine ⟨p, ?_⟩
    unfold findPath
    rw [hloop]
    dsimp only
    rw [if_pos hsome]
    exact hp

/-- C8 witness: the theorem applied to a concrete all-ocean 2 by 2 grid. -/
theorem findPath_spec_witness :
    astarLoop (⟨2, 2, fun _ _ => Terrain.ocean⟩ : HexGrid) false (1, 1)
        (fuelBound ⟨2, 2, fun _ _ => Terrain.ocean⟩) (initState (0, 0)) ≠ none ∧
    (¬ Reach (⟨2, 2, fun _ _ => Terrain.ocean⟩ : HexGrid) false (0, 0) (1, 1) →
      findPath ⟨2, 2, fun _ _ => Terrain.ocean⟩ (0, 0) (1, 1) false = none) ∧
    (∀ p, findPath ⟨2, 2, fun _ _ => Terrain.ocean⟩ (0, 0) (1, 1) false = some p →
      p.head? = some (0, 0) ∧ p.getLast? = some (1, 1)) ∧
    (∀ st, astarLoop (⟨2, 2, fun _ _ => Terrain.ocean⟩ : HexGrid) false (1, 1)
        (fuelBound ⟨2, 2, fun _ _ => Terrain.ocean⟩) (initState (0, 0)) = some st →
      (st.came (1, 1)).isSome →
      ∃ p, findPath ⟨2, 2, fun _ _ => Terrain.ocean⟩ (0, 0) (1, 1) false = some p) :=
  findPath_spec ⟨2, 2, fun _ _ => Terrain.ocean⟩ (0, 0) (1, 1) false
    (by norm_num) (by norm_num)

end GeoSim
